import Mathlib

/-!
Verification of the POI ingestion and grid-cell reconciliation scripts.

This file gives a shallow embedding, in Lean, of the logic of the four
ingestion/repair scripts of the repository:

* `script/pois_migration_script.py`   (Google-Places area ingestion, chunked, resumable)
* `script/kyoto_plan3_migration.py`   (Kyoto plan-3 ingestion with category merging)
* `script/upload_kyoto_horror_spots.py` (CSV-driven horror-spot ingestion)
* `script/check_grid_cell_duplicates.py` (duplicate grid-cell repair)

External collaborators (the Supabase store, the Places HTTP API, the
`pygeohash` library) are modelled as explicit data: tables are lists of
rows, API results are function parameters, geohash geometry is a
deterministic stand-in function.  Python floats (ratings, coordinates)
are modelled as rationals; Python truthiness (`if not grid_cell_id`,
`if not all([...])`) is modelled explicitly where the scripts rely on it.
-/

namespace Team8

/-! ## Generic helpers -/

/-- Union of two category lists with set semantics (Python
`list(set(a).union(set(b)))`; Python's set iteration order is
unspecified, the embedding fixes the canonical order `a` then new
elements of `b`).  Membership is what the theorems use. -/
def listUnion (a b : List String) : List String :=
  a ++ b.filter (fun c => decide (c ∉ a))

/-- First occurrences of each element, in order (the key order of a
Python `dict` built by insertion). -/
def firstOccurrences (l : List String) : List String :=
  l.foldl (fun acc g => if g ∈ acc then acc else acc ++ [g]) []

/-- Chunk slices `remaining[i:i+CHUNK_SIZE]` of the Python chunk loops. -/
def chunksOf (n : Nat) : List String → List (List String)
  | [] => []
  | x :: xs =>
    if _h : n = 0 then [] else (x :: xs).take n :: chunksOf n ((x :: xs).drop n)
termination_by l => l.length
decreasing_by
  simp only [List.length_drop, List.length_cons]
  omega

/-- Is `needle` a leading segment of `hay`?  (helper for substring search) -/
def prefixCheck : List Char → List Char → Bool
  | [], _ => true
  | _ :: _, [] => false
  | a :: as, b :: bs => a == b && prefixCheck as bs

/-- Does `needle` occur contiguously inside `hay`?  (helper for substring search) -/
def infixCheck (needle : List Char) : List Char → Bool
  | [] => prefixCheck needle []
  | hay@(_ :: rest) => prefixCheck needle hay || infixCheck needle rest

/-- Python's `needle in hay` substring test on strings. -/
def containsSub (hay needle : String) : Bool :=
  infixCheck needle.data hay.data

/-- Deterministic stand-in for the WKT point geometry
the scripts build from a longitude/latitude pair via shapely.
(The `shapely`/format details are out of scope; what matters to the
logic is that the value is a pure function of the coordinates.) -/
def pointWkt (lng lat : ℚ) : String :=
  "SRID=4326;POINT (" ++ toString lng ++ " " ++ toString lat ++ ")"

/-- Deterministic stand-in for the bounding-box polygon geometry a
script derives from a geohash via `pygeohash` (a pure library, out of
scope); idempotence arguments only need determinism in the geohash. -/
def geomFor (g : String) : String :=
  "SRID=4326;BBOX(" ++ g ++ ")"

/-! ## Grid-cell store (`grid_cells` table) and get-or-create

`save_grid_cell` in `kyoto_plan3_migration.py` (lines 199-237) and in
`upload_kyoto_horror_spots.py` (lines 62-99) both do check-then-insert:
select by geohash, return the existing id if found, otherwise insert a
new row and return its id.  `ensure_grid_cells_exist` in
`pois_migration_script.py` (lines 215-259) instead upserts rows with
`on_conflict='geohash'`.  Store-assigned ids are modelled by a counter. -/

structure CellRow where
  id : Nat
  geohash : String
  geometry : String
deriving DecidableEq, Repr

structure CellStore where
  rows : List CellRow
  nextId : Nat
deriving DecidableEq, Repr

/-- Function `save_grid_cell(geohash)`: check-then-insert get-or-create, returning
the cell id (success path of the two scripts' identical logic). -/
def save_grid_cell (s : CellStore) (g : String) : Option Nat × CellStore :=
  match s.rows.find? (fun r => r.geohash = g) with
  | some r => (some r.id, s)
  | none =>
    let row : CellRow := ⟨s.nextId, g, geomFor g⟩
    (some row.id, { rows := s.rows ++ [row], nextId := s.nextId + 1 })

/-- One payload entry of the `grid_cells` upsert with
`on_conflict='geohash'`: update the geometry of the matching row if one
exists, otherwise insert. -/
def upsertCell (s : CellStore) (g : String) : CellStore :=
  if s.rows.any (fun r => r.geohash = g) then
    { s with rows := s.rows.map (fun r => if r.geohash = g then { r with geometry := geomFor g } else r) }
  else
    { rows := s.rows ++ [⟨s.nextId, g, geomFor g⟩], nextId := s.nextId + 1 }

/-- Function `ensure_grid_cells_exist`: upsert one row per requested geohash
(`on_conflict='geohash'`). -/
def ensure_grid_cells_exist (s : CellStore) (gs : List String) : CellStore :=
  gs.foldl upsertCell s

/-! ## Duplicate grid-cell repair (`check_grid_cell_duplicates.py`)

The script fetches all `grid_cells` rows, groups them by geohash (dict
insertion order), and for every geohash with more than one row sorts the
group ascending by `created_at` (Python's `sorted` is stable: first
inserted wins on ties), keeping `sorted_cells[0]` and marking the rest
for removal.  After operator confirmation it then, for each cell to be
removed, re-points every POI whose `grid_cell_id` is that cell to the
kept cell's id (a per-POI update that may fail, in which case the script
only logs the failure) and deletes the duplicate cell unconditionally.
Update failures are modelled by the oracle `updateFails : poi id → Bool`;
the delete is counted as success by the script (`delete_result.data is
not None`) and modelled as always effective. -/

structure GridCell where
  id : Nat
  geohash : String
  geometry : String
  createdAt : Nat
deriving DecidableEq, Repr

/-- A `pois` row as the repair script sees it: its id, name and grid-cell
reference. -/
structure RPoi where
  id : String
  name : String
  gridCellId : Nat
deriving DecidableEq, Repr

structure RepairDB where
  gridCells : List GridCell
  pois : List RPoi
deriving DecidableEq, Repr

/-- Insert a cell into a list already sorted ascending by `created_at`,
after all strictly earlier-created cells (so that among equal timestamps
the original order is kept — stability of Python's `sorted`). -/
def insertByCreated (c : GridCell) : List GridCell → List GridCell
  | [] => [c]
  | x :: xs => if x.createdAt < c.createdAt then x :: insertByCreated c xs else c :: x :: xs

/-- Stable ascending sort by `created_at` (`sorted(cells, key=lambda x:
x['created_at'])`). -/
def sortByCreated : List GridCell → List GridCell
  | [] => []
  | x :: xs => insertByCreated x (sortByCreated xs)

/-- The grid cells carrying a given geohash, in table order
(`geohash_groups[geohash]`). -/
def cellsFor (cells : List GridCell) (g : String) : List GridCell :=
  cells.filter (fun c => c.geohash = g)

/-- The distinct geohashes in first-appearance order (the iteration
order of the `geohash_groups` dict). -/
def geohashOrder (cells : List GridCell) : List String :=
  firstOccurrences (cells.map (fun c => c.geohash))

/-- The repair plan for one geohash: `(keep, remove)` when its group has
more than one member — `keep` the first of the group sorted ascending by
`created_at`, `remove` the rest — and `none` otherwise. -/
def planFor (cells : List GridCell) (g : String) : Option (GridCell × List GridCell) :=
  match sortByCreated (cellsFor cells g) with
  | k :: r :: rest => some (k, r :: rest)
  | _ => none

/-- The `duplicates` dict of the script: every geohash owning more than
one grid cell, with its kept cell and its cells to remove, in dict
order. -/
def duplicateGroups (cells : List GridCell) : List (GridCell × List GridCell) :=
  (geohashOrder cells).filterMap (planFor cells)

/-- Re-point (`update ... set grid_cell_id = keepId where id = poi.id`)
every POI currently referencing `removeId`; a POI whose update fails is
logged and left unchanged. -/
def repointPois (keepId removeId : Nat) (updateFails : String → Bool) (pois : List RPoi) : List RPoi :=
  pois.map (fun p =>
    if p.gridCellId = removeId ∧ updateFails p.id = false then { p with gridCellId := keepId } else p)

/-- Handling of one duplicate cell: re-point its POIs, then delete the
cell (the script deletes unconditionally, whatever the updates did). -/
def removeCellStep (updateFails : String → Bool) (keepId : Nat) (db : RepairDB) (rc : GridCell) : RepairDB :=
  { gridCells := db.gridCells.filter (fun c => c.id ≠ rc.id),
    pois := repointPois keepId rc.id updateFails db.pois }

/-- The repair pass of `main` (lines 112-139): the plan is computed once
from the initial table, then every duplicate cell of every group is
processed in order. -/
def runRepair (db : RepairDB) (updateFails : String → Bool) : RepairDB :=
  (duplicateGroups db.gridCells).foldl
    (fun acc kr => kr.2.foldl (removeCellStep updateFails kr.1.id) acc)
    db

/-- The ids of all cells the plan removes. -/
def removeIds (cells : List GridCell) : List Nat :=
  (duplicateGroups cells).flatMap (fun kr => kr.2.map (fun c => c.id))

/-- Cumulative effect on one POI of processing the removal list of one
group (fold of the per-cell re-point). -/
def retargetList (keepId : Nat) (rcs : List GridCell) (updateFails : String → Bool) (p : RPoi) : RPoi :=
  rcs.foldl
    (fun q rc => if q.gridCellId = rc.id ∧ updateFails q.id = false then { q with gridCellId := keepId } else q)
    p

/-- Cumulative effect on one POI of the whole repair plan. -/
def retargetPlan (plan : List (GridCell × List GridCell)) (updateFails : String → Bool) (p : RPoi) : RPoi :=
  plan.foldl (fun q kr => retargetList kr.1.id kr.2 updateFails q) p

/-! ### Basic lemmas about the repair embedding -/

theorem firstOccurrences_mem_aux (l acc : List String) (x : String) :
    x ∈ l.foldl (fun acc g => if g ∈ acc then acc else acc ++ [g]) acc ↔ x ∈ acc ∨ x ∈ l := by
  induction l generalizing acc with
  | nil => simp
  | cons a l ih =>
    simp only [List.foldl_cons]
    by_cases h : a ∈ acc
    · rw [if_pos h, ih]
      simp only [List.mem_cons]
      constructor
      · tauto
      · rintro (hx | rfl | hx) <;> tauto
    · rw [if_neg h, ih]
      simp only [List.mem_append, List.mem_singleton, List.mem_cons]
      tauto

theorem firstOccurrences_mem (l : List String) (x : String) :
    x ∈ firstOccurrences l ↔ x ∈ l := by
  rw [firstOccurrences, firstOccurrences_mem_aux]
  simp

theorem mem_geohashOrder (cells : List GridCell) (g : String) :
    g ∈ geohashOrder cells ↔ ∃ c ∈ cells, c.geohash = g := by
  rw [geohashOrder, firstOccurrences_mem, List.mem_map]

theorem insertByCreated_perm (c : GridCell) (l : List GridCell) :
    List.Perm (insertByCreated c l) (c :: l) := by
  induction l with
  | nil => simp [insertByCreated]
  | cons x xs ih =>
    rw [insertByCreated]
    by_cases h : x.createdAt < c.createdAt
    · rw [if_pos h]
      exact (ih.cons x).trans (List.Perm.swap c x xs)
    · rw [if_neg h]

theorem sortByCreated_perm (l : List GridCell) : List.Perm (sortByCreated l) l := by
  induction l with
  | nil => rfl
  | cons x xs ih =>
    rw [sortByCreated]
    exact (insertByCreated_perm x (sortByCreated xs)).trans (ih.cons x)

/-- The first element of the stable sort is the earliest-created member,
and among equal timestamps the first inserted: everything strictly
before it in the original list was created strictly later. -/
theorem sortByCreated_head_spec :
    ∀ (l : List GridCell) (k : GridCell) (t : List GridCell),
      sortByCreated l = k :: t →
      (∃ pre post, l = pre ++ k :: post ∧ ∀ c ∈ pre, k.createdAt < c.createdAt) ∧
        ∀ c ∈ l, k.createdAt ≤ c.createdAt := by
  intro l
  induction l with
  | nil => intro k t h; simp [sortByCreated] at h
  | cons x xs ih =>
    intro k t h
    rw [sortByCreated] at h
    rcases hs : sortByCreated xs with _ | ⟨k', t'⟩
    · have hp := sortByCreated_perm xs
      rw [hs] at hp
      have hxs : xs = [] := List.Perm.eq_nil hp.symm
      rw [hs] at h
      simp only [insertByCreated] at h
      obtain ⟨rfl, rfl⟩ := List.cons.inj h
      refine ⟨⟨[], [], by simp [hxs], by simp⟩, ?_⟩
      intro c hc
      rw [hxs] at hc
      simp at hc
      simp [hc]
    · obtain ⟨⟨pre', post', hsplit, hpre'⟩, hmin'⟩ := ih k' t' hs
      rw [hs, insertByCreated] at h
      by_cases hlt : k'.createdAt < x.createdAt
      · rw [if_pos hlt] at h
        obtain ⟨rfl, rfl⟩ := List.cons.inj h
        refine ⟨⟨x :: pre', post', by simp [hsplit], ?_⟩, ?_⟩
        · intro c hc
          rcases List.mem_cons.mp hc with rfl | hc
          · exact hlt
          · exact hpre' c hc
        · intro c hc
          rcases List.mem_cons.mp hc with rfl | hc
          · exact le_of_lt hlt
          · exact hmin' c hc
      · rw [if_neg hlt] at h
        obtain ⟨rfl, rfl⟩ := List.cons.inj h
        refine ⟨⟨[], xs, rfl, by simp⟩, ?_⟩
        intro c hc
        rcases List.mem_cons.mp hc with rfl | hc
        · exact le_refl _
        · exact le_trans (Nat.le_of_not_lt hlt) (hmin' c hc)

/-- Closed form of processing one group's removal list: cells are
filtered by id, POIs go through `retargetList`. -/
theorem foldl_removeCellStep (f : String → Bool) (keepId : Nat) :
    ∀ (rcs : List GridCell) (db : RepairDB),
      rcs.foldl (removeCellStep f keepId) db =
        { gridCells := db.gridCells.filter (fun c => decide (c.id ∉ rcs.map (fun c => c.id))),
          pois := db.pois.map (retargetList keepId rcs f) } := by
  intro rcs
  induction rcs with
  | nil =>
    intro db
    cases db
    simp only [List.foldl_nil, RepairDB.mk.injEq]
    exact ⟨(List.filter_eq_self.mpr (by simp)).symm, (List.map_id' _).symm⟩
  | cons r rs ih =>
    intro db
    rw [List.foldl_cons, ih]
    rcases db with ⟨cells, pois⟩
    simp only [removeCellStep, RepairDB.mk.injEq]
    constructor
    · rw [List.filter_filter]
      apply List.filter_congr
      intro c _
      simp only [List.map_cons, List.mem_cons, not_or, ne_eq]
      rw [Bool.and_comm]
      simp
    · rw [repointPois, List.map_map]
      apply List.map_congr_left
      intro p _
      rfl

/-- Closed form of the whole repair pass over an arbitrary plan. -/
theorem runRepair_closed_aux (f : String → Bool) :
    ∀ (plan : List (GridCell × List GridCell)) (db : RepairDB),
      plan.foldl (fun acc kr => kr.2.foldl (removeCellStep f kr.1.id) acc) db =
        { gridCells := db.gridCells.filter
            (fun c => decide (c.id ∉ plan.flatMap (fun kr => kr.2.map (fun c => c.id)))),
          pois := db.pois.map (retargetPlan plan f) } := by
  intro plan
  induction plan with
  | nil =>
    intro db
    cases db
    simp only [List.foldl_nil, RepairDB.mk.injEq]
    exact ⟨(List.filter_eq_self.mpr (by simp)).symm, (List.map_id' _).symm⟩
  | cons kr plan ih =>
    intro db
    rw [List.foldl_cons, foldl_removeCellStep, ih]
    simp only [RepairDB.mk.injEq]
    constructor
    · rw [List.filter_filter]
      apply List.filter_congr
      intro c _
      simp only [List.flatMap_cons, List.mem_append, not_or]
      rw [Bool.and_comm]
      simp
    · rw [List.map_map]
      apply List.map_congr_left
      intro p _
      rfl

/-- Running `runRepair` deletes exactly the planned duplicate cells and maps each
POI through the cumulative re-pointing function. -/
theorem runRepair_eq (db : RepairDB) (f : String → Bool) :
    runRepair db f =
      { gridCells := db.gridCells.filter (fun c => decide (c.id ∉ removeIds db.gridCells)),
        pois := db.pois.map (retargetPlan (duplicateGroups db.gridCells) f) } :=
  runRepair_closed_aux f (duplicateGroups db.gridCells) db

theorem retargetList_skip (keepId : Nat) (rcs : List GridCell) (f : String → Bool) (p : RPoi)
    (h : p.gridCellId ∉ rcs.map (fun c => c.id)) :
    retargetList keepId rcs f p = p := by
  induction rcs with
  | nil => rfl
  | cons r rs ih =>
    simp only [List.map_cons, List.mem_cons, not_or] at h
    rw [retargetList, List.foldl_cons, if_neg (fun hc => h.1 hc.1)]
    exact ih h.2

theorem retargetList_fail (keepId : Nat) (rcs : List GridCell) (f : String → Bool) (p : RPoi)
    (hf : f p.id = true) :
    retargetList keepId rcs f p = p := by
  induction rcs with
  | nil => rfl
  | cons r rs ih =>
    rw [retargetList, List.foldl_cons,
      if_neg (fun hc => by rw [hf] at hc; exact Bool.noConfusion hc.2)]
    exact ih

theorem retargetList_hit (keepId : Nat) (rcs : List GridCell) (f : String → Bool) (p : RPoi)
    (r : GridCell) (hnd : (rcs.map (fun c => c.id)).Nodup) (hk : keepId ∉ rcs.map (fun c => c.id))
    (hr : r ∈ rcs) (hp : p.gridCellId = r.id) (hf : f p.id = false) :
    retargetList keepId rcs f p = { p with gridCellId := keepId } := by
  induction rcs with
  | nil => cases hr
  | cons a as ih =>
    simp only [List.map_cons, List.nodup_cons] at hnd
    simp only [List.map_cons, List.mem_cons, not_or] at hk
    rcases List.mem_cons.mp hr with rfl | hras
    · rw [retargetList, List.foldl_cons, if_pos ⟨hp, hf⟩]
      exact retargetList_skip keepId as f _ (by simpa using hk.2)
    · have hne : p.gridCellId ≠ a.id := by
        rw [hp]
        intro hcontra
        exact hnd.1 (hcontra ▸ List.mem_map_of_mem (fun c => c.id) hras)
      rw [retargetList, List.foldl_cons, if_neg (fun hc => hne hc.1)]
      exact ih hnd.2 hk.2 hras

theorem retargetPlan_fail (plan : List (GridCell × List GridCell)) (f : String → Bool) (p : RPoi)
    (hf : f p.id = true) :
    retargetPlan plan f p = p := by
  induction plan with
  | nil => rfl
  | cons kr rest ih =>
    rw [retargetPlan, List.foldl_cons, retargetList_fail _ _ _ _ hf]
    exact ih

/-! ### Identifying the plan's cells inside the table -/

theorem mem_cellsFor {cells : List GridCell} {g : String} {c : GridCell} :
    c ∈ cellsFor cells g ↔ c ∈ cells ∧ c.geohash = g := by
  simp [cellsFor, List.mem_filter]

theorem planFor_eq_some {cells : List GridCell} {g : String} {k : GridCell} {rs : List GridCell}
    (h : planFor cells g = some (k, rs)) :
    sortByCreated (cellsFor cells g) = k :: rs ∧ rs ≠ [] := by
  unfold planFor at h
  rcases hs : sortByCreated (cellsFor cells g) with _ | ⟨a, _ | ⟨b, t⟩⟩ <;> rw [hs] at h
  · simp at h
  · simp at h
  · simp only [Option.some.injEq, Prod.mk.injEq] at h
    exact ⟨by rw [h.1, h.2], by rw [← h.2]; simp⟩

theorem planFor_group_perm {cells : List GridCell} {g : String} {k : GridCell} {rs : List GridCell}
    (h : planFor cells g = some (k, rs)) :
    List.Perm (k :: rs) (cellsFor cells g) := by
  rw [← (planFor_eq_some h).1]
  exact sortByCreated_perm _

theorem planFor_mem {cells : List GridCell} {g : String} {k : GridCell} {rs : List GridCell}
    (h : planFor cells g = some (k, rs)) :
    ∀ c ∈ k :: rs, c ∈ cells ∧ c.geohash = g := by
  intro c hc
  exact mem_cellsFor.mp ((planFor_group_perm h).mem_iff.mp hc)

theorem planFor_of_two_le {cells : List GridCell} {g : String}
    (h2 : 2 ≤ (cellsFor cells g).length) :
    ∃ k rs, planFor cells g = some (k, rs) := by
  have hlen := (sortByCreated_perm (cellsFor cells g)).length_eq
  rcases hs : sortByCreated (cellsFor cells g) with _ | ⟨a, _ | ⟨b, t⟩⟩ <;> rw [hs] at hlen
  · simp at hlen; omega
  · simp at hlen; omega
  · exact ⟨a, b :: t, by unfold planFor; rw [hs]⟩

theorem cell_id_inj {cells : List GridCell} (hid : (cells.map (fun c => c.id)).Nodup)
    {c c' : GridCell} (hc : c ∈ cells) (hc' : c' ∈ cells) (h : c.id = c'.id) : c = c' :=
  List.inj_on_of_nodup_map hid hc hc' h

theorem group_ids_nodup {cells : List GridCell} {g : String} {k : GridCell} {rs : List GridCell}
    (hid : (cells.map (fun c => c.id)).Nodup)
    (h : planFor cells g = some (k, rs)) :
    ((k :: rs).map (fun c => c.id)).Nodup := by
  have hsub : ((cellsFor cells g).map (fun c => c.id)).Nodup :=
    ((List.filter_sublist cells).map (fun c => c.id)).nodup hid
  exact (((planFor_group_perm h).map (fun c => c.id)).nodup_iff).mpr hsub

/-- Two plan groups for distinct geohashes hold cells with disjoint ids. -/
theorem group_member_id_notin {cells : List GridCell}
    (hid : (cells.map (fun c => c.id)).Nodup)
    {g : String} {k : GridCell} {rs : List GridCell} (hplan : planFor cells g = some (k, rs))
    {g' : String} {k' : GridCell} {rs' : List GridCell} (hplan' : planFor cells g' = some (k', rs'))
    (hgg : g ≠ g') {c : GridCell} (hc : c ∈ k :: rs) :
    c.id ∉ (k' :: rs').map (fun x => x.id) := by
  intro hmem
  obtain ⟨c', hc', hcid⟩ := List.mem_map.mp hmem
  have h1 := planFor_mem hplan c hc
  have h2 := planFor_mem hplan' c' hc'
  have hcc : c = c' := cell_id_inj hid h1.1 h2.1 hcid.symm
  apply hgg
  rw [← h1.2, hcc, h2.2]

theorem planFor_some_inj {cells : List GridCell} {g : String} {k k' : GridCell}
    {rs rs' : List GridCell}
    (h1 : planFor cells g = some (k, rs)) (h2 : planFor cells g = some (k', rs')) :
    k = k' ∧ rs = rs' := by
  rw [h1] at h2
  have h := Option.some.inj h2
  exact ⟨congrArg Prod.fst h, congrArg Prod.snd h⟩

theorem mem_duplicateGroups {cells : List GridCell} {kr : GridCell × List GridCell} :
    kr ∈ duplicateGroups cells ↔ ∃ g ∈ geohashOrder cells, planFor cells g = some kr := by
  simp [duplicateGroups, List.mem_filterMap]

theorem mem_removeIds {cells : List GridCell} {i : Nat} :
    i ∈ removeIds cells ↔
      ∃ g ∈ geohashOrder cells, ∃ k rs, planFor cells g = some (k, rs) ∧ ∃ r ∈ rs, r.id = i := by
  simp only [removeIds, List.mem_flatMap, mem_duplicateGroups]
  constructor
  · rintro ⟨⟨k, rs⟩, ⟨g, hg, hplan⟩, hmem⟩
    obtain ⟨r, hr, hrid⟩ := List.mem_map.mp hmem
    exact ⟨g, hg, k, rs, hplan, r, hr, hrid⟩
  · rintro ⟨g, hg, k, rs, hplan, r, hr, hrid⟩
    exact ⟨(k, rs), ⟨g, hg, hplan⟩, List.mem_map.mpr ⟨r, hr, hrid⟩⟩

theorem keep_id_not_removed {cells : List GridCell}
    (hid : (cells.map (fun c => c.id)).Nodup)
    {g : String} {k : GridCell} {rs : List GridCell}
    (hplan : planFor cells g = some (k, rs)) :
    k.id ∉ removeIds cells := by
  intro hmem
  rw [mem_removeIds] at hmem
  obtain ⟨g', _, k', rs', hplan', r', hr', hrid⟩ := hmem
  by_cases hgg : g = g'
  · subst hgg
    obtain ⟨hk, hrs⟩ := planFor_some_inj hplan hplan'
    subst hk
    subst hrs
    have hnd := group_ids_nodup hid hplan
    simp only [List.map_cons, List.nodup_cons] at hnd
    exact hnd.1 (hrid ▸ List.mem_map_of_mem (fun c => c.id) hr')
  · exact group_member_id_notin hid hplan hplan' hgg (List.mem_cons_self k rs)
      (by
        simp only [List.map_cons, List.mem_cons]
        exact Or.inr (List.mem_map.mpr ⟨r', hr', hrid⟩))

/-- A POI already pointing at a group's kept cell is never touched again
by any later (or earlier) group of the plan. -/
theorem retargetPlan_keep_fixed (cells : List GridCell) (f : String → Bool)
    (hid : (cells.map (fun c => c.id)).Nodup)
    {g : String} {k : GridCell} {rs : List GridCell}
    (hplan : planFor cells g = some (k, rs)) :
    ∀ (gs : List String) (p : RPoi), p.gridCellId = k.id →
      retargetPlan (gs.filterMap (planFor cells)) f p = p := by
  intro gs
  induction gs with
  | nil => intro p _; rfl
  | cons g' gs' ih =>
    intro p hp
    rcases hpf : planFor cells g' with _ | ⟨k', rs'⟩
    · simp only [List.filterMap_cons, hpf]
      exact ih p hp
    · simp only [List.filterMap_cons, hpf]
      rw [retargetPlan, List.foldl_cons]
      have hskip : retargetList k'.id rs' f p = p := by
        apply retargetList_skip
        rw [hp]
        by_cases hgg : g = g'
        · subst hgg
          obtain ⟨hk, hrs⟩ := planFor_some_inj hplan hpf
          subst hk
          subst hrs
          have hnd := group_ids_nodup hid hplan
          simp only [List.map_cons, List.nodup_cons] at hnd
          exact hnd.1
        · have hni := group_member_id_notin hid hplan hpf hgg (List.mem_cons_self k rs)
          intro hmem
          apply hni
          simp only [List.map_cons, List.mem_cons]
          exact Or.inr hmem
      rw [hskip]
      exact ih p hp

/-- A POI pointing at a removed duplicate of group `g`, whose update does
not fail, ends up pointing at the kept cell of `g`. -/
theorem retargetPlan_hits (cells : List GridCell) (f : String → Bool)
    (hid : (cells.map (fun c => c.id)).Nodup)
    {g : String} {k : GridCell} {rs : List GridCell}
    (hplan : planFor cells g = some (k, rs))
    {r : GridCell} (hr : r ∈ rs) :
    ∀ (gs : List String) (p : RPoi), g ∈ gs → p.gridCellId = r.id → f p.id = false →
      retargetPlan (gs.filterMap (planFor cells)) f p = { p with gridCellId := k.id } := by
  intro gs
  induction gs with
  | nil => intro p hg; exact absurd hg (List.not_mem_nil g)
  | cons g' gs' ih =>
    intro p hg hp hf
    rcases hpf : planFor cells g' with _ | ⟨k', rs'⟩
    · simp only [List.filterMap_cons, hpf]
      apply ih p ?_ hp hf
      rcases List.mem_cons.mp hg with heq | hmem
      · rw [heq] at hplan
        rw [hplan] at hpf
        cases hpf
      · exact hmem
    · simp only [List.filterMap_cons, hpf]
      by_cases hgg : g' = g
      · subst hgg
        obtain ⟨hk, hrs⟩ := planFor_some_inj hplan hpf
        subst hk
        subst hrs
        rw [retargetPlan, List.foldl_cons]
        have hnd := group_ids_nodup hid hplan
        simp only [List.map_cons, List.nodup_cons] at hnd
        rw [retargetList_hit k.id rs f p r hnd.2 hnd.1 hr hp hf]
        exact retargetPlan_keep_fixed cells f hid hplan gs' _ rfl
      · rw [retargetPlan, List.foldl_cons]
        have hni := group_member_id_notin hid hplan hpf (fun h => hgg h.symm)
          (List.mem_cons_of_mem k hr)
        have hskip : retargetList k'.id rs' f p = p := by
          apply retargetList_skip
          rw [hp]
          intro hmem
          apply hni
          simp only [List.map_cons, List.mem_cons]
          exact Or.inr hmem
        rw [hskip]
        apply ih p ?_ hp hf
        rcases List.mem_cons.mp hg with heq | hmem
        · exact absurd heq.symm hgg
        · exact hmem

theorem nodup_all_eq_singleton {α : Type} {l : List α} {a : α}
    (hn : l.Nodup) (ha : a ∈ l) (hall : ∀ x ∈ l, x = a) : l = [a] := by
  cases l with
  | nil => cases ha
  | cons x t =>
    have hx : x = a := hall x (List.mem_cons_self x t)
    subst hx
    cases t with
    | nil => rfl
    | cons y t' =>
      exfalso
      rw [List.nodup_cons] at hn
      have hy : y = x := hall y (by simp)
      exact hn.1 (hy ▸ List.mem_cons_self y t')

theorem cellsFor_filter (cells : List GridCell) (g : String) (q : GridCell → Bool) :
    cellsFor (cells.filter q) g = (cellsFor cells g).filter q := by
  simp only [cellsFor, List.filter_filter]
  apply List.filter_congr
  intro c _
  rw [Bool.and_comm]

/-- Claim C4: for every geohash with two or more grid-cell rows, running
repair (with every POI update succeeding) leaves exactly one grid-cell
row for that geohash — the earliest-created member, first-inserted
winning timestamp ties — and every POI that referenced any member of the
group references the surviving cell id afterwards. -/
theorem repair_keeps_earliest_and_repoints
    (db : RepairDB) (f : String → Bool) (g : String)
    (hid : (db.gridCells.map (fun c => c.id)).Nodup)
    (hdup : 2 ≤ (cellsFor db.gridCells g).length)
    (hok : ∀ pid, f pid = false) :
    ∃ k : GridCell,
      cellsFor (runRepair db f).gridCells g = [k] ∧
      (∃ pre post, cellsFor db.gridCells g = pre ++ k :: post ∧
        ∀ c ∈ pre, k.createdAt < c.createdAt) ∧
      (∀ c ∈ cellsFor db.gridCells g, k.createdAt ≤ c.createdAt) ∧
      (∀ p ∈ db.pois, p.gridCellId ∈ (cellsFor db.gridCells g).map (fun c => c.id) →
        { p with gridCellId := k.id } ∈ (runRepair db f).pois) := by
  obtain ⟨k, rs, hplan⟩ := planFor_of_two_le hdup
  have hsort := (planFor_eq_some hplan).1
  obtain ⟨⟨pre, post, hsplit, hpre⟩, hmin⟩ := sortByCreated_head_spec _ k rs hsort
  have hkmem := planFor_mem hplan k (List.mem_cons_self k rs)
  have hgo : g ∈ geohashOrder db.gridCells := (mem_geohashOrder _ _).mpr ⟨k, hkmem.1, hkmem.2⟩
  have hperm := planFor_group_perm hplan
  refine ⟨k, ?_, ⟨pre, post, hsplit, hpre⟩, hmin, ?_⟩
  · rw [runRepair_eq]
    simp only [cellsFor_filter]
    apply nodup_all_eq_singleton
    · exact ((List.filter_sublist _).trans (List.filter_sublist _)).nodup
        (List.Nodup.of_map (fun c => c.id) hid)
    · rw [List.mem_filter]
      refine ⟨mem_cellsFor.mpr ⟨hkmem.1, hkmem.2⟩, ?_⟩
      simp only [decide_eq_true_eq]
      exact keep_id_not_removed hid hplan
    · intro x hx
      rw [List.mem_filter] at hx
      obtain ⟨hxin, hxnot⟩ := hx
      simp only [decide_eq_true_eq] at hxnot
      rcases List.mem_cons.mp (hperm.mem_iff.mpr hxin) with heq | hmemrs
      · exact heq
      · exfalso
        exact hxnot (mem_removeIds.mpr ⟨g, hgo, k, rs, hplan, x, hmemrs, rfl⟩)
  · intro p hp hpid
    obtain ⟨c, hcin, hcid⟩ := List.mem_map.mp hpid
    rw [runRepair_eq]
    rcases List.mem_cons.mp (hperm.mem_iff.mpr hcin) with heq | hmemrs
    · subst heq
      refine List.mem_map.mpr ⟨p, hp, ?_⟩
      have hfix := retargetPlan_keep_fixed db.gridCells f hid hplan
        (geohashOrder db.gridCells) p hcid.symm
      rw [show duplicateGroups db.gridCells =
        (geohashOrder db.gridCells).filterMap (planFor db.gridCells) from rfl, hfix]
      cases p
      simp only [RPoi.mk.injEq, and_true, true_and]
      exact hcid.symm
    · refine List.mem_map.mpr ⟨p, hp, ?_⟩
      exact retargetPlan_hits db.gridCells f hid hplan hmemrs
        (geohashOrder db.gridCells) p hgo hcid.symm (hok p.id)

/-- Witness for C4 at a concrete database: geohash `"wxyz01"` has two
cells, the second-inserted one created earlier, so it survives; both
POIs end up referencing it. -/
theorem repair_keeps_earliest_and_repoints_witness :
    ((([⟨1, "wxyz01", "GEO", 10⟩, ⟨2, "wxyz01", "GEO", 5⟩] : List GridCell).map
        (fun c => c.id)).Nodup ∧
      2 ≤ (cellsFor [⟨1, "wxyz01", "GEO", 10⟩, ⟨2, "wxyz01", "GEO", 5⟩] "wxyz01").length) ∧
    ∃ k : GridCell,
      cellsFor (runRepair
          { gridCells := [⟨1, "wxyz01", "GEO", 10⟩, ⟨2, "wxyz01", "GEO", 5⟩],
            pois := [⟨"p1", "Poi One", 1⟩, ⟨"p2", "Poi Two", 2⟩] }
          (fun _ => false)).gridCells "wxyz01" = [k] ∧
      (∃ pre post, cellsFor [⟨1, "wxyz01", "GEO", 10⟩, ⟨2, "wxyz01", "GEO", 5⟩] "wxyz01" =
          pre ++ k :: post ∧ ∀ c ∈ pre, k.createdAt < c.createdAt) ∧
      (∀ c ∈ cellsFor [⟨1, "wxyz01", "GEO", 10⟩, ⟨2, "wxyz01", "GEO", 5⟩] "wxyz01",
        k.createdAt ≤ c.createdAt) ∧
      (∀ p ∈ [(⟨"p1", "Poi One", 1⟩ : RPoi), ⟨"p2", "Poi Two", 2⟩],
        p.gridCellId ∈ (cellsFor [⟨1, "wxyz01", "GEO", 10⟩, ⟨2, "wxyz01", "GEO", 5⟩]
            "wxyz01").map (fun c => c.id) →
        { p with gridCellId := k.id } ∈ (runRepair
            { gridCells := [⟨1, "wxyz01", "GEO", 10⟩, ⟨2, "wxyz01", "GEO", 5⟩],
              pois := [⟨"p1", "Poi One", 1⟩, ⟨"p2", "Poi Two", 2⟩] }
            (fun _ => false)).pois) :=
  ⟨⟨by decide, by decide⟩,
    repair_keeps_earliest_and_repoints
      { gridCells := [⟨1, "wxyz01", "GEO", 10⟩, ⟨2, "wxyz01", "GEO", 5⟩],
        pois := [⟨"p1", "Poi One", 1⟩, ⟨"p2", "Poi Two", 2⟩] }
      (fun _ => false) "wxyz01" (by decide) (by decide) (fun _ => rfl)⟩

/-- Claim C2 counterexample: a database with two cells for geohash
`"wxyz01"` and one POI on the later-created duplicate whose re-point
update fails.  The script still deletes the duplicate (id 2): the final
state keeps only cell 1 while POI `"p1"` still references id 2, which no
longer exists — refuting "the duplicate cell is not deleted". -/
theorem repoint_failure_counterexample :
    runRepair
        { gridCells := [⟨1, "wxyz01", "GEO", 0⟩, ⟨2, "wxyz01", "GEO", 1⟩],
          pois := [⟨"p1", "Poi One", 2⟩] }
        (fun pid => pid == "p1") =
      { gridCells := [⟨1, "wxyz01", "GEO", 0⟩], pois := [⟨"p1", "Poi One", 2⟩] } ∧
    (2 : Nat) ∉ (runRepair
        { gridCells := [⟨1, "wxyz01", "GEO", 0⟩, ⟨2, "wxyz01", "GEO", 1⟩],
          pois := [⟨"p1", "Poi One", 2⟩] }
        (fun pid => pid == "p1")).gridCells.map (fun c => c.id) := by
  decide

/-- Claim C2 (amended): a failed re-point is only logged; the duplicate
cell is deleted regardless, and a POI whose re-point failed keeps its
(now dangling) reference to the deleted cell. -/
theorem repoint_failure_still_deletes
    (db : RepairDB) (f : String → Bool) (g : String) (k : GridCell) (rs : List GridCell)
    (hplan : planFor db.gridCells g = some (k, rs)) :
    ∀ r ∈ rs,
      (∀ c ∈ (runRepair db f).gridCells, c.id ≠ r.id) ∧
      ∀ p ∈ db.pois, p.gridCellId = r.id → f p.id = true → p ∈ (runRepair db f).pois := by
  intro r hr
  have hkmem := planFor_mem hplan k (List.mem_cons_self k rs)
  have hgo : g ∈ geohashOrder db.gridCells := (mem_geohashOrder _ _).mpr ⟨k, hkmem.1, hkmem.2⟩
  constructor
  · intro c hc heq
    rw [runRepair_eq] at hc
    rw [List.mem_filter] at hc
    have := hc.2
    simp only [decide_eq_true_eq] at this
    exact this (heq ▸ mem_removeIds.mpr ⟨g, hgo, k, rs, hplan, r, hr, rfl⟩)
  · intro p hp _ hf
    rw [runRepair_eq]
    exact List.mem_map.mpr ⟨p, hp, retargetPlan_fail _ f p hf⟩

/-- Witness for the amended C2 at the counterexample database. -/
theorem repoint_failure_still_deletes_witness :
    (planFor [⟨1, "wxyz01", "GEO", 0⟩, ⟨2, "wxyz01", "GEO", 1⟩] "wxyz01" =
        some (⟨1, "wxyz01", "GEO", 0⟩, [⟨2, "wxyz01", "GEO", 1⟩]) ∧
      (⟨2, "wxyz01", "GEO", 1⟩ : GridCell) ∈ [(⟨2, "wxyz01", "GEO", 1⟩ : GridCell)]) ∧
    ((∀ c ∈ (runRepair
          { gridCells := [⟨1, "wxyz01", "GEO", 0⟩, ⟨2, "wxyz01", "GEO", 1⟩],
            pois := [⟨"p1", "Poi One", 2⟩] }
          (fun pid => pid == "p1")).gridCells,
        c.id ≠ (⟨2, "wxyz01", "GEO", 1⟩ : GridCell).id) ∧
      ∀ p ∈ [(⟨"p1", "Poi One", 2⟩ : RPoi)],
        p.gridCellId = (⟨2, "wxyz01", "GEO", 1⟩ : GridCell).id →
        (fun pid => pid == "p1") p.id = true →
        p ∈ (runRepair
            { gridCells := [⟨1, "wxyz01", "GEO", 0⟩, ⟨2, "wxyz01", "GEO", 1⟩],
              pois := [⟨"p1", "Poi One", 2⟩] }
            (fun pid => pid == "p1")).pois) :=
  ⟨⟨by decide, by decide⟩,
    repoint_failure_still_deletes
      { gridCells := [⟨1, "wxyz01", "GEO", 0⟩, ⟨2, "wxyz01", "GEO", 1⟩],
        pois := [⟨"p1", "Poi One", 2⟩] }
      (fun pid => pid == "p1") "wxyz01" ⟨1, "wxyz01", "GEO", 0⟩ [⟨2, "wxyz01", "GEO", 1⟩]
      (by decide) ⟨2, "wxyz01", "GEO", 1⟩ (by decide)⟩

/-! ## Place-search results

A candidate returned by the external place search, after the scripts'
conversion of the new-API response (`place_id`, `name`, `rating` with
`0` default, `types`, coordinates).  The HTTP layer, retries and paging
are out of scope; fetched results enter the models as function
parameters. -/

structure Place where
  place_id : String
  name : String
  rating : ℚ
  types : List String
  lat : ℚ
  lng : ℚ
deriving DecidableEq, Repr

/-! ## Kyoto plan-3 ingestion (`kyoto_plan3_migration.py`)

`get_pois_for_geohash` resolves the grid cell (skipping the whole unit
when that fails), then accumulates one record per `place_id` over all
place types, unioning the per-type Japanese category labels.
`save_pois_to_db` first groups the batch by id (unioning categories),
then for each record reads any stored row, unions the stored categories
in, and upserts the whole record (`on_conflict='id'`). -/

structure KPoi where
  id : String
  name : String
  location : String
  categories : List String
  gridCellId : Nat
  rate : ℚ
deriving DecidableEq, Repr

/-- The `POI_TYPES` of the kyoto script: API type, Japanese label. -/
def KYOTO_POI_TYPES : List (String × String) :=
  [("restaurant", "レストラン"), ("cafe", "カフェ"), ("tourist_attraction", "観光名所"),
   ("museum", "美術館・博物館"), ("park", "公園"), ("shopping_mall", "ショッピングモール"),
   ("convenience_store", "コンビニエンスストア"), ("gas_station", "ガソリンスタンド"),
   ("hospital", "病院"), ("pharmacy", "薬局"), ("bank", "銀行"), ("atm", "ATM"),
   ("lodging", "宿泊施設"), ("transit_station", "交通機関")]

/-- One fetched place entering the kyoto per-geohash `poi_dict`: skip on
missing id or falsy coordinate, union the label into an existing entry,
or append a fresh record. -/
def addKyotoPlace (gridCellId : Nat) (typeJa : String) (acc : List KPoi) (poi : Place) :
    List KPoi :=
  if poi.place_id = "" then acc
  else if poi.lat = 0 ∨ poi.lng = 0 then acc
  else if acc.any (fun q => q.id = poi.place_id) then
    acc.map (fun q =>
      if q.id = poi.place_id then { q with categories := listUnion q.categories [typeJa] } else q)
  else
    acc ++ [⟨poi.place_id, poi.name, pointWkt poi.lng poi.lat, [typeJa], gridCellId, poi.rating⟩]

/-- Function `get_pois_for_geohash`: empty when the grid cell could not be saved
(`if not grid_cell_id`, which is also falsy on id `0`), otherwise the
accumulated unique POIs over every place type. -/
def get_pois_for_geohash (cellRes : Option Nat) (fetchK : String → List Place) : List KPoi :=
  match cellRes with
  | none => []
  | some cid =>
    if cid = 0 then []
    else KYOTO_POI_TYPES.foldl
      (fun acc ty => (fetchK ty.1).foldl (addKyotoPlace cid ty.2) acc) []

/-- One step of the in-batch grouping of `save_pois_to_db`: merge the
categories into an already-seen id, else keep the record. -/
def mergeByIdStep (acc : List KPoi) (poi : KPoi) : List KPoi :=
  if acc.any (fun q => q.id = poi.id) then
    acc.map (fun q =>
      if q.id = poi.id then { q with categories := listUnion q.categories poi.categories } else q)
  else acc ++ [poi]

/-- The `poi_dict` grouping of `save_pois_to_db` (insertion order kept). -/
def groupPoisById (pois : List KPoi) : List KPoi :=
  pois.foldl mergeByIdStep []

/-- Lookup `select ... where id = pid` on the `pois` table. -/
def findPoi (table : List KPoi) (pid : String) : Option KPoi :=
  table.find? (fun q => q.id = pid)

/-- The stored category set of an id (empty when the id is absent). -/
def storedCategories (table : List KPoi) (pid : String) : List String :=
  match findPoi table pid with
  | some q => q.categories
  | none => []

/-- Per-record write of `save_pois_to_db`: when a row with the id exists
the incoming record is upserted wholesale after widening its categories
with the stored ones; otherwise the record is inserted. -/
def savePoiRecord (table : List KPoi) (poi : KPoi) : List KPoi :=
  match findPoi table poi.id with
  | some ex =>
    table.map (fun q =>
      if q.id = poi.id then { poi with categories := listUnion ex.categories poi.categories } else q)
  | none => table ++ [poi]

/-- Function `save_pois_to_db` (success path of every per-record try/except). -/
def save_pois_to_db (table : List KPoi) (pois : List KPoi) : List KPoi :=
  (groupPoisById pois).foldl savePoiRecord table

/-! ## Area ingestion rows (`pois_migration_script.py`)

This script stores one `category` string per POI (the first API type
tag, or the queried type) and upserts rows with `on_conflict='id'`,
replacing every supplied column of an existing row. -/

structure MPoi where
  id : String
  name : String
  location : String
  category : String
  rate : ℚ
  gridCellId : Option Nat
deriving DecidableEq, Repr

/-- Lookup `select ... where id = pid` on the `pois` table (migration rows). -/
def findMPoi (table : List MPoi) (pid : String) : Option MPoi :=
  table.find? (fun q => q.id = pid)

/-- The write `supabase.table('pois').upsert(pois_to_insert, on_conflict='id')`:
each payload row replaces the row sharing its id, or is appended. -/
def upsertPois (table : List MPoi) (payload : List MPoi) : List MPoi :=
  payload.foldl
    (fun t p =>
      if t.any (fun q => q.id = p.id) then t.map (fun q => if q.id = p.id then p else q)
      else t ++ [p])
    table

/-! ### Category-union lemmas for the kyoto save path -/

theorem mem_listUnion {a b : List String} {c : String} :
    c ∈ listUnion a b ↔ c ∈ a ∨ c ∈ b := by
  simp only [listUnion, List.mem_append, List.mem_filter, decide_eq_true_eq]
  constructor
  · rintro (h | ⟨h, _⟩) <;> tauto
  · intro h
    by_cases hc : c ∈ a <;> tauto

theorem findPoi_map_update (table : List KPoi) (pid : String) (v : KPoi)
    (hv : v.id = pid) (pid' : String) :
    findPoi (table.map (fun q => if q.id = pid then v else q)) pid' =
      (findPoi table pid').map (fun q => if q.id = pid then v else q) := by
  induction table with
  | nil => rfl
  | cons q t ih =>
    simp only [List.map_cons, findPoi] at ih ⊢
    by_cases hq : q.id = pid
    · rw [if_pos hq]
      by_cases hp : pid' = pid
      · rw [List.find?_cons_of_pos _ (by simp [hv, hp]),
          List.find?_cons_of_pos _ (by simp [hq, hp])]
        simp [hq]
      · rw [List.find?_cons_of_neg _ (by simp [hv]; exact fun h => hp h.symm),
          List.find?_cons_of_neg _ (by simp [hq]; exact fun h => hp h.symm)]
        exact ih
    · rw [if_neg hq]
      by_cases hp : q.id = pid'
      · rw [List.find?_cons_of_pos _ (by simp [hp]), List.find?_cons_of_pos _ (by simp [hp])]
        simp [hq]
      · rw [List.find?_cons_of_neg _ (by simp [hp]), List.find?_cons_of_neg _ (by simp [hp])]
        exact ih

theorem findPoi_id {table : List KPoi} {pid : String} {ex : KPoi}
    (h : findPoi table pid = some ex) : ex.id = pid := by
  have := List.find?_some h
  simpa using this

theorem storedCategories_savePoiRecord (table : List KPoi) (m : KPoi) (pid c : String) :
    c ∈ storedCategories (savePoiRecord table m) pid ↔
      c ∈ storedCategories table pid ∨ (m.id = pid ∧ c ∈ m.categories) := by
  unfold savePoiRecord
  rcases hfind : findPoi table m.id with _ | ex
  · -- no stored row: plain insert at the end of the table
    by_cases hpid : m.id = pid
    · subst hpid
      unfold storedCategories
      rw [show findPoi (table ++ [m]) m.id = some m from by
        unfold findPoi
        rw [List.find?_append, show List.find? (fun q => decide (q.id = m.id)) table = none
          from hfind]
        simp [List.find?]]
      rw [hfind]
      simp
    · unfold storedCategories
      rw [show findPoi (table ++ [m]) pid = findPoi table pid from by
        unfold findPoi
        rw [List.find?_append]
        have : List.find? (fun q => decide (q.id = pid)) [m] = none := by
          simp [List.find?, hpid]
        rw [this]
        cases List.find? (fun q => decide (q.id = pid)) table <;> rfl]
      simp [hpid]
  · -- stored row `ex`: wholesale upsert with widened categories
    unfold storedCategories
    dsimp only
    rw [findPoi_map_update table m.id
      { m with categories := listUnion ex.categories m.categories } rfl pid]
    by_cases hpid : m.id = pid
    · subst hpid
      rw [hfind]
      dsimp only [Option.map]
      rw [if_pos (findPoi_id hfind)]
      dsimp only
      simp only [mem_listUnion]
      tauto
    · rcases hfind' : findPoi table pid with _ | q
      · simp [hpid]
      · dsimp only [Option.map]
        rw [if_neg (by rw [findPoi_id hfind']; exact fun h => hpid h.symm)]
        simp [hpid]

theorem storedCategories_saveFold (ms : List KPoi) :
    ∀ (table : List KPoi) (pid c : String),
      c ∈ storedCategories (ms.foldl savePoiRecord table) pid ↔
        c ∈ storedCategories table pid ∨ ∃ m ∈ ms, m.id = pid ∧ c ∈ m.categories := by
  induction ms with
  | nil => intro table pid c; simp
  | cons m ms ih =>
    intro table pid c
    rw [List.foldl_cons, ih, storedCategories_savePoiRecord]
    simp only [List.mem_cons]
    constructor
    · rintro ((h | h) | ⟨m', hm', h⟩)
      · exact Or.inl h
      · exact Or.inr ⟨m, Or.inl rfl, h⟩
      · exact Or.inr ⟨m', Or.inr hm', h⟩
    · rintro (h | ⟨m', hm' | hm', h⟩)
      · exact Or.inl (Or.inl h)
      · exact Or.inl (Or.inr (hm' ▸ h))
      · exact Or.inr ⟨m', hm', h⟩

theorem mergeByIdStep_hasCat (acc : List KPoi) (poi : KPoi) (pid c : String) :
    (∃ m ∈ mergeByIdStep acc poi, m.id = pid ∧ c ∈ m.categories) ↔
      (∃ m ∈ acc, m.id = pid ∧ c ∈ m.categories) ∨ (poi.id = pid ∧ c ∈ poi.categories) := by
  unfold mergeByIdStep
  by_cases hany : acc.any (fun q => q.id = poi.id)
  · rw [if_pos hany]
    obtain ⟨q0, hq0, hq0id⟩ := by simpa using List.any_eq_true.mp hany
    constructor
    · rintro ⟨m, hm, hmid, hc⟩
      obtain ⟨q, hq, hfq⟩ := List.mem_map.mp hm
      by_cases hqid : q.id = poi.id
      · rw [if_pos hqid] at hfq
        subst hfq
        simp only [mem_listUnion] at hc
        rcases hc with hc | hc
        · exact Or.inl ⟨q, hq, hmid, hc⟩
        · exact Or.inr ⟨by rw [← hqid]; exact hmid, hc⟩
      · rw [if_neg hqid] at hfq
        subst hfq
        exact Or.inl ⟨q, hq, hmid, hc⟩
    · rintro (⟨m, hm, hmid, hc⟩ | ⟨hpid, hc⟩)
      · by_cases hmid' : m.id = poi.id
        · refine ⟨{ m with categories := listUnion m.categories poi.categories },
            List.mem_map.mpr ⟨m, hm, by rw [if_pos hmid']⟩, hmid, ?_⟩
          exact mem_listUnion.mpr (Or.inl hc)
        · exact ⟨m, List.mem_map.mpr ⟨m, hm, by rw [if_neg hmid']⟩, hmid, hc⟩
      · refine ⟨{ q0 with categories := listUnion q0.categories poi.categories },
          List.mem_map.mpr ⟨q0, hq0, by rw [if_pos hq0id]⟩, by rw [hq0id, hpid], ?_⟩
        exact mem_listUnion.mpr (Or.inr hc)
  · rw [if_neg hany]
    simp only [List.mem_append, List.mem_singleton]
    constructor
    · rintro ⟨m, hm | rfl, hmid, hc⟩
      · exact Or.inl ⟨m, hm, hmid, hc⟩
      · exact Or.inr ⟨hmid, hc⟩
    · rintro (⟨m, hm, hmid, hc⟩ | ⟨hpid, hc⟩)
      · exact ⟨m, Or.inl hm, hmid, hc⟩
      · exact ⟨poi, Or.inr rfl, hpid, hc⟩

theorem groupPoisById_hasCat (pois : List KPoi) (pid c : String) :
    (∃ m ∈ groupPoisById pois, m.id = pid ∧ c ∈ m.categories) ↔
      ∃ p ∈ pois, p.id = pid ∧ c ∈ p.categories := by
  have aux : ∀ (l : List KPoi) (acc : List KPoi),
      (∃ m ∈ l.foldl mergeByIdStep acc, m.id = pid ∧ c ∈ m.categories) ↔
        (∃ m ∈ acc, m.id = pid ∧ c ∈ m.categories) ∨ ∃ p ∈ l, p.id = pid ∧ c ∈ p.categories := by
    intro l
    induction l with
    | nil => intro acc; simp
    | cons p l ih =>
      intro acc
      rw [List.foldl_cons, ih, mergeByIdStep_hasCat]
      simp only [List.mem_cons]
      constructor
      · rintro ((h | h) | ⟨p', hp', h⟩)
        · exact Or.inl h
        · exact Or.inr ⟨p, Or.inl rfl, h⟩
        · exact Or.inr ⟨p', Or.inr hp', h⟩
      · rintro (h | ⟨p', hp' | hp', h⟩)
        · exact Or.inl (Or.inl h)
        · exact Or.inl (Or.inr (hp' ▸ h))
        · exact Or.inr ⟨p', hp', h⟩
  rw [groupPoisById, aux]
  simp

/-- Claim C1 counterexample: the area-ingestion writer
(`populate_pois_chunk`) stores a single `category` string per POI and
its `on_conflict='id'` upsert overwrites it.  Observing place `X1` as
`"cafe"` in one run and as `"park"` in a later run leaves only
`"park"`: the previously stored `"cafe"` is removed by the later write,
so the stored category set is not the union of every observed category. -/
theorem category_overwrite_counterexample :
    (findMPoi (upsertPois [] [⟨"X1", "Cafe X", "LOC", "cafe", 4, some 1⟩])
        "X1").map (fun q => q.category) = some "cafe" ∧
    (findMPoi (upsertPois (upsertPois [] [⟨"X1", "Cafe X", "LOC", "cafe", 4, some 1⟩])
        [⟨"X1", "Cafe X", "LOC", "park", 4, some 1⟩]) "X1").map (fun q => q.category) =
      some "park" ∧
    "park" ≠ "cafe" := by
  decide

/-- Claim C1 (amended): the union invariant holds on the kyoto save path
— after `save_pois_to_db` the stored category set of every id is exactly
the union of the previously stored set and every category observed for
that id in the batch, so no kyoto write drops a category.  The
area-ingestion path (`populate_pois_chunk`) instead keeps a single
last-written `category` string (see the counterexample). -/
theorem kyoto_save_categories_union (table pois : List KPoi) (pid c : String) :
    c ∈ storedCategories (save_pois_to_db table pois) pid ↔
      c ∈ storedCategories table pid ∨ ∃ p ∈ pois, p.id = pid ∧ c ∈ p.categories := by
  unfold save_pois_to_db
  rw [storedCategories_saveFold (groupPoisById pois) table pid c,
    groupPoisById_hasCat pois pid c]

/-- Claim C3 counterexample: merging an incoming record for `X1` into a
stored record whose name (`"Old Name"`), location and rate are all
non-empty replaces every scalar field with the incoming value; only the
categories are unioned.  First-writer-wins for scalars is refuted. -/
theorem scalar_overwrite_counterexample :
    findPoi (save_pois_to_db [⟨"X1", "Old Name", "LOC0", ["カフェ"], 1, 4⟩]
        [⟨"X1", "New Name", "LOC1", ["公園"], 2, 3⟩]) "X1" =
      some ⟨"X1", "New Name", "LOC1", ["カフェ", "公園"], 2, 3⟩ ∧
    "Old Name" ≠ "" ∧ "New Name" ≠ "Old Name" := by
  decide

/-- Claim C3 (amended): when a stored row exists for the incoming id,
the merge unions the category sets but every scalar field (name,
location, rate, grid-cell reference) takes the incoming value —
last-writer-wins, not first-writer-wins.  (A `url` field exists only in
the insert-only horror-spot variant, which never merges.) -/
theorem kyoto_merge_scalars_incoming_win
    (table : List KPoi) (m ex : KPoi) (hfind : findPoi table m.id = some ex) :
    findPoi (savePoiRecord table m) m.id =
      some { m with categories := listUnion ex.categories m.categories } := by
  unfold savePoiRecord
  rw [hfind]
  dsimp only
  rw [findPoi_map_update table m.id
    { m with categories := listUnion ex.categories m.categories } rfl m.id, hfind]
  dsimp only [Option.map]
  rw [if_pos (findPoi_id hfind)]

/-- Witness for the amended C3 at a concrete table. -/
theorem kyoto_merge_scalars_incoming_win_witness :
    findPoi [⟨"X1", "Old Name", "LOC0", ["カフェ"], 1, (4 : ℚ)⟩]
        (KPoi.id ⟨"X1", "New Name", "LOC1", ["公園"], 2, 3⟩) =
      some ⟨"X1", "Old Name", "LOC0", ["カフェ"], 1, 4⟩ ∧
    findPoi (savePoiRecord [⟨"X1", "Old Name", "LOC0", ["カフェ"], 1, 4⟩]
        ⟨"X1", "New Name", "LOC1", ["公園"], 2, 3⟩)
        (KPoi.id ⟨"X1", "New Name", "LOC1", ["公園"], 2, 3⟩) =
      some { (⟨"X1", "New Name", "LOC1", ["公園"], 2, 3⟩ : KPoi) with
              categories := listUnion ["カフェ"] ["公園"] } :=
  ⟨by decide,
    kyoto_merge_scalars_incoming_win [⟨"X1", "Old Name", "LOC0", ["カフェ"], 1, 4⟩]
      ⟨"X1", "New Name", "LOC1", ["公園"], 2, 3⟩
      ⟨"X1", "Old Name", "LOC0", ["カフェ"], 1, 4⟩ (by decide)⟩

/-! ### Idempotence of the grid-cell store operations -/

/-- The store is "ready" for geohash `g`: a row for `g` exists and every
row for `g` already carries the geometry derived from `g`. -/
def cellReady (s : CellStore) (g : String) : Prop :=
  s.rows.any (fun r => r.geohash = g) = true ∧
  ∀ r ∈ s.rows, r.geohash = g → r.geometry = geomFor g

theorem upsertCell_ready_self (s : CellStore) (g : String) : cellReady (upsertCell s g) g := by
  unfold upsertCell cellReady
  by_cases hany : s.rows.any (fun r => r.geohash = g) = true
  · rw [if_pos hany]
    obtain ⟨r0, hr0, hr0g⟩ := by simpa using List.any_eq_true.mp hany
    constructor
    · apply List.any_eq_true.mpr
      refine ⟨if r0.geohash = g then { r0 with geometry := geomFor g } else r0,
        List.mem_map_of_mem _ hr0, ?_⟩
      rw [if_pos hr0g]
      simpa using hr0g
    · intro r hr hrg
      obtain ⟨q, hq, hfq⟩ := List.mem_map.mp hr
      by_cases hqg : q.geohash = g
      · rw [if_pos hqg] at hfq
        rw [← hfq]
      · rw [if_neg hqg] at hfq
        exact absurd (hfq ▸ hrg) hqg
  · rw [if_neg hany]
    constructor
    · apply List.any_eq_true.mpr
      exact ⟨⟨s.nextId, g, geomFor g⟩, by simp, by simp⟩
    · intro r hr hrg
      rcases List.mem_append.mp hr with hold | hnew
      · exfalso
        apply hany
        exact List.any_eq_true.mpr ⟨r, hold, by simpa using hrg⟩
      · rw [List.mem_singleton] at hnew
        rw [hnew]

theorem upsertCell_ready_mono (s : CellStore) (g g' : String) (h : cellReady s g) :
    cellReady (upsertCell s g') g := by
  obtain ⟨hany, hall⟩ := h
  obtain ⟨r0, hr0, hr0g⟩ := by simpa using List.any_eq_true.mp hany
  unfold upsertCell cellReady
  by_cases hany' : s.rows.any (fun r => r.geohash = g') = true
  · rw [if_pos hany']
    constructor
    · apply List.any_eq_true.mpr
      refine ⟨if r0.geohash = g' then { r0 with geometry := geomFor g' } else r0,
        List.mem_map_of_mem _ hr0, ?_⟩
      by_cases hq : r0.geohash = g'
      · rw [if_pos hq]
        simpa using hr0g
      · rw [if_neg hq]
        simpa using hr0g
    · intro r hr hrg
      obtain ⟨q, hq, hfq⟩ := List.mem_map.mp hr
      by_cases hqg : q.geohash = g'
      · rw [if_pos hqg] at hfq
        have hqr : q.geohash = r.geohash := by rw [← hfq]
        have hgg : g' = g := by rw [← hqg, hqr, hrg]
        rw [← hfq]
        show geomFor g' = geomFor g
        rw [hgg]
      · rw [if_neg hqg] at hfq
        exact hfq ▸ hall q hq (hfq ▸ hrg)
  · rw [if_neg hany']
    constructor
    · exact List.any_eq_true.mpr ⟨r0, List.mem_append_left _ hr0, by simpa using hr0g⟩
    · intro r hr hrg
      rcases List.mem_append.mp hr with hold | hnew
      · exact hall r hold hrg
      · rw [List.mem_singleton] at hnew
        subst hnew
        have hgg : g' = g := hrg
        show geomFor g' = geomFor g
        rw [hgg]

theorem upsertCell_of_ready (s : CellStore) (g : String) (h : cellReady s g) :
    upsertCell s g = s := by
  obtain ⟨hany, hall⟩ := h
  unfold upsertCell
  rw [if_pos hany]
  have hmap : s.rows.map
      (fun r => if r.geohash = g then { r with geometry := geomFor g } else r) = s.rows := by
    rw [show s.rows.map (fun r => if r.geohash = g then { r with geometry := geomFor g } else r) =
        s.rows.map (fun r => r) from List.map_congr_left ?_, List.map_id']
    intro r hr
    by_cases hrg : r.geohash = g
    · rw [if_pos hrg, ← hall r hr hrg]
    · rw [if_neg hrg]
  rw [hmap]

theorem ensure_ready_mono (gs : List String) :
    ∀ (s : CellStore) (g : String), cellReady s g →
      cellReady (ensure_grid_cells_exist s gs) g := by
  induction gs with
  | nil => intro s g h; exact h
  | cons g' gs' ih =>
    intro s g h
    exact ih (upsertCell s g') g (upsertCell_ready_mono s g g' h)

theorem ensure_ready (gs : List String) :
    ∀ (s : CellStore) (g : String), g ∈ gs →
      cellReady (ensure_grid_cells_exist s gs) g := by
  induction gs with
  | nil => intro s g h; cases h
  | cons g' gs' ih =>
    intro s g hg
    rcases List.mem_cons.mp hg with rfl | hmem
    · exact ensure_ready_mono gs' (upsertCell s g) g (upsertCell_ready_self s g)
    · exact ih (upsertCell s g') g hmem

theorem save_grid_cell_found {s : CellStore} {g : String} {r : CellRow}
    (hfind : s.rows.find? (fun r => r.geohash = g) = some r) :
    save_grid_cell s g = (some r.id, s) := by
  unfold save_grid_cell
  rw [hfind]

theorem save_grid_cell_not_found {s : CellStore} {g : String}
    (hfind : s.rows.find? (fun r => r.geohash = g) = none) :
    save_grid_cell s g = (some s.nextId,
      { rows := s.rows ++ [⟨s.nextId, g, geomFor g⟩], nextId := s.nextId + 1 }) := by
  unfold save_grid_cell
  rw [hfind]

/-- Claim C5: get-or-create is idempotent.  Calling `save_grid_cell`
twice for the same geohash returns the same cell id both times, leaves
exactly one `grid_cells` row for that geohash, and the second call does
not mutate the store at all; and a second run of the upsert-based
`ensure_grid_cells_exist` over the same geohashes leaves the store
unchanged. -/
theorem grid_cell_get_or_create_idempotent (s : CellStore) (g : String) (gs : List String)
    (h1 : (s.rows.filter (fun r => r.geohash = g)).length ≤ 1) :
    (save_grid_cell s g).1 = (save_grid_cell (save_grid_cell s g).2 g).1 ∧
    (save_grid_cell (save_grid_cell s g).2 g).2 = (save_grid_cell s g).2 ∧
    (((save_grid_cell s g).2).rows.filter (fun r => r.geohash = g)).length = 1 ∧
    ensure_grid_cells_exist (ensure_grid_cells_exist s gs) gs =
      ensure_grid_cells_exist s gs := by
  have hens : ensure_grid_cells_exist (ensure_grid_cells_exist s gs) gs =
      ensure_grid_cells_exist s gs := by
    have aux : ∀ (gs' : List String) (t : CellStore), (∀ g' ∈ gs', cellReady t g') →
        ensure_grid_cells_exist t gs' = t := by
      intro gs'
      induction gs' with
      | nil => intro t _; rfl
      | cons g' rest ih =>
        intro t h
        show ensure_grid_cells_exist (upsertCell t g') rest = t
        rw [upsertCell_of_ready t g' (h g' (List.mem_cons_self g' rest))]
        exact ih t (fun g'' hg'' => h g'' (List.mem_cons_of_mem g' hg''))
    exact aux gs _ (fun g' hg' => ensure_ready gs s g' hg')
  rcases hfind : s.rows.find? (fun r => r.geohash = g) with _ | r
  · -- no row yet: the first call inserts, the second finds that row
    have hfilter : s.rows.filter (fun r => decide (r.geohash = g)) = [] := by
      apply List.filter_eq_nil_iff.mpr
      intro r hr
      exact List.find?_eq_none.mp hfind r hr
    have hfind2 : (s.rows ++ [(⟨s.nextId, g, geomFor g⟩ : CellRow)]).find?
        (fun r => r.geohash = g) = some ⟨s.nextId, g, geomFor g⟩ := by
      rw [List.find?_append, hfind]
      simp [List.find?]
    rw [save_grid_cell_not_found hfind]
    refine ⟨?_, ?_, ?_, hens⟩
    · show (some s.nextId : Option Nat) =
        (save_grid_cell ⟨s.rows ++ [⟨s.nextId, g, geomFor g⟩], s.nextId + 1⟩ g).1
      rw [save_grid_cell_found hfind2]
    · show (save_grid_cell ⟨s.rows ++ [⟨s.nextId, g, geomFor g⟩], s.nextId + 1⟩ g).2 =
        ({ rows := s.rows ++ [⟨s.nextId, g, geomFor g⟩], nextId := s.nextId + 1 } : CellStore)
      rw [save_grid_cell_found hfind2]
    · show (((s.rows ++ [(⟨s.nextId, g, geomFor g⟩ : CellRow)]).filter
          (fun r => decide (r.geohash = g)))).length = 1
      rw [List.filter_append, hfilter]
      simp
  · -- a row exists: both calls return it and change nothing
    rw [save_grid_cell_found hfind]
    refine ⟨?_, ?_, ?_, hens⟩
    · show (some r.id : Option Nat) = (save_grid_cell s g).1
      rw [save_grid_cell_found hfind]
    · show (save_grid_cell s g).2 = s
      rw [save_grid_cell_found hfind]
    · show (s.rows.filter (fun r => decide (r.geohash = g))).length = 1
      have hrp := List.find?_some hfind
      have hmem := List.mem_of_find?_eq_some hfind
      have hmemf : r ∈ s.rows.filter (fun r => decide (r.geohash = g)) :=
        List.mem_filter.mpr ⟨hmem, hrp⟩
      have hpos : 0 < (s.rows.filter (fun r => decide (r.geohash = g))).length :=
        List.length_pos_of_mem hmemf
      omega

/-- Witness for C5 at the empty store and geohash `"xn774c"`. -/
theorem grid_cell_get_or_create_idempotent_witness :
    ((((⟨[], 1⟩ : CellStore)).rows.filter (fun r => r.geohash = "xn774c")).length ≤ 1) ∧
    ((save_grid_cell ⟨[], 1⟩ "xn774c").1 =
        (save_grid_cell (save_grid_cell ⟨[], 1⟩ "xn774c").2 "xn774c").1 ∧
      (save_grid_cell (save_grid_cell ⟨[], 1⟩ "xn774c").2 "xn774c").2 =
        (save_grid_cell ⟨[], 1⟩ "xn774c").2 ∧
      (((save_grid_cell ⟨[], 1⟩ "xn774c").2).rows.filter
          (fun r => r.geohash = "xn774c")).length = 1 ∧
      ensure_grid_cells_exist (ensure_grid_cells_exist ⟨[], 1⟩ ["xn774c"]) ["xn774c"] =
        ensure_grid_cells_exist ⟨[], 1⟩ ["xn774c"]) :=
  ⟨by decide, grid_cell_get_or_create_idempotent ⟨[], 1⟩ "xn774c" ["xn774c"] (by decide)⟩

/-! ## Area ingestion per-geohash scan (`pois_migration_script.py`)

`populate_pois_chunk` walks the chunk's geohashes.  Per geohash it
queries every type of `POI_TYPES` (skipping `riverside_park`, whose
candidates come from the saved `park` results afterwards), deduplicates
by place id, admits candidates whose rating reaches the per-category
threshold (3.0 for parks — riverside parks included — `MIN_RATING = 3.5`
otherwise), skips riverside-named parks in the main pass, then reclaims
them from the park results as `riverside_park`.  The accumulated rows
are upserted in one batch; only then is the geohash recorded processed. -/

def MIN_RATING : ℚ := 35 / 10

def CHUNK_SIZE : Nat := 10

def POI_TYPES_M : List String :=
  ["cafe", "park", "tourist_attraction", "art_gallery", "book_store",
   "bakery", "store", "home_goods_store", "museum",
   "shrine", "temple", "florist", "library", "riverside_park"]

def RIVERSIDE_KEYWORDS : List String :=
  ["河川敷", "川原", "河原", "河川", "堤防", "川辺", "水辺",
   "リバーサイド", "riverside", "川沿い", "河岸"]

/-- Predicate `is_riverside_park`: keyword test on the lowercased name (the types
argument is accepted and ignored, as in the script). -/
def is_riverside_park (placeName : String) (_placeTypes : List String) : Bool :=
  RIVERSIDE_KEYWORDS.any (fun k => containsSub placeName.toLower k.toLower)

/-- The admission threshold of the queried category:
`3.0 if poi_type == 'park' else MIN_RATING`. -/
def minRatingFor (poiType : String) : ℚ :=
  if poiType = "park" then 3 else MIN_RATING

/-- The per-geohash scan state: `found_place_ids` and `pois_to_insert`. -/
structure ScanState where
  found : List String
  toInsert : List MPoi
deriving DecidableEq, Repr

/-- One candidate of the main per-type pass. -/
def scanTypePlace (poiType : String) (cellId : Option Nat) (st : ScanState) (place : Place) :
    ScanState :=
  if place.place_id ≠ "" ∧ place.place_id ∉ st.found ∧ minRatingFor poiType ≤ place.rating then
    if poiType = "park" ∧ is_riverside_park place.name place.types = true then st
    else
      { found := st.found ++ [place.place_id],
        toInsert := st.toInsert ++
          [⟨place.place_id, place.name, pointWkt place.lng place.lat,
            place.types.headD poiType, place.rating, cellId⟩] }
  else st

/-- One type of the main pass (`riverside_park` itself is skipped). -/
def scanType (fetch : String → List Place) (cellId : Option Nat) (st : ScanState)
    (poiType : String) : ScanState :=
  if poiType = "riverside_park" then st
  else (fetch poiType).foldl (scanTypePlace poiType cellId) st

/-- The main pass over every type of `POI_TYPES`. -/
def mainScan (fetch : String → List Place) (cellId : Option Nat) : ScanState :=
  POI_TYPES_M.foldl (scanType fetch cellId) ⟨[], []⟩

/-- One candidate of the riverside reclaiming pass over the saved park
results (threshold 3.0, category forced to `riverside_park`). -/
def scanRiversidePlace (cellId : Option Nat) (st : ScanState) (place : Place) : ScanState :=
  if place.place_id ≠ "" ∧ place.place_id ∉ st.found ∧ (3 : ℚ) ≤ place.rating then
    if is_riverside_park place.name place.types = true then
      { found := st.found ++ [place.place_id],
        toInsert := st.toInsert ++
          [⟨place.place_id, place.name, pointWkt place.lng place.lat,
            "riverside_park", place.rating, cellId⟩] }
    else st
  else st

/-- The complete candidate collection for one geohash: main pass, then
the riverside pass over the park results. -/
def collectPois (fetch : String → List Place) (cellId : Option Nat) : ScanState :=
  (fetch "park").foldl (scanRiversidePlace cellId) (mainScan fetch cellId)

/-- Set add `processed_geohashes.add(geohash)`. -/
def addProcessed (ps : List String) (g : String) : List String :=
  if g ∈ ps then ps else ps ++ [g]

/-- The chunk-walk state: the `pois` table and the processed set. -/
structure ChunkState where
  table : List MPoi
  processed : List String
deriving DecidableEq, Repr

/-- Processing of one geohash of a chunk (lines 353-465): collect the
candidates; with nothing to insert the geohash is recorded processed
right away; otherwise the write happens only when the grid-cell id is
truthy, the cell still exists on re-verification and the upsert does not
fail — any of those failures leaves the state untouched (`continue`). -/
def processGeohash (fetchAt : String → List Place) (cellMap : String → Option Nat)
    (cellExists : Nat → Bool) (upsertFails : Bool) (st : ChunkState) (g : String) :
    ChunkState :=
  if (collectPois fetchAt (cellMap g)).toInsert = [] then
    { st with processed := addProcessed st.processed g }
  else
    match cellMap g with
    | none => st
    | some cid =>
      if cid = 0 then st
      else if cellExists cid = false then st
      else if upsertFails = true then st
      else
        { table := upsertPois st.table ((collectPois fetchAt (cellMap g)).toInsert),
          processed := addProcessed st.processed g }

/-- Function `populate_pois_chunk`: fold of the per-geohash processing over the
chunk (failures only ever skip the one geohash). -/
def populate_pois_chunk (fetch : String → String → List Place) (cellMap : String → Option Nat)
    (cellExists : Nat → Bool) (upsertFails : String → Bool) (st : ChunkState)
    (chunk : List String) : ChunkState :=
  chunk.foldl (fun s g => processGeohash (fetch g) cellMap cellExists (upsertFails g) s g) st

/-- Selection `remaining_geohashes = [gh for gh in all_geohashes if gh not in
processed_geohashes]` of `main`. -/
def remainingGeohashes (allGeo processed : List String) : List String :=
  allGeo.filter (fun g => decide (g ∉ processed))

/-! ## Horror-spot CSV ingestion (`upload_kyoto_horror_spots.py`) -/

/-- The `CATEGORY_KEYWORDS` table: category label and its trigger keywords. -/
def CATEGORY_KEYWORDS : List (String × List String) :=
  [("establishment",
    ["トンネル", "病院", "ホテル", "旅館", "モーテル", "廃墟", "洋館", "学校", "中学校", "高校",
     "大学", "駅", "踏切", "商業施設", "遊園地", "トイレ", "公衆トイレ", "廃", "跡",
     "アスレチック", "橋", "ブリッジ", "落合橋", "赤橋", "クレインブリッジ", "道", "峠",
     "カーブ", "山中越え"]),
   ("natural_feature",
    ["湖", "池", "ダム", "山", "森", "川", "滝", "樹木", "杉", "クスノキ", "海", "深泥池",
     "血の池", "妙見山", "箕面", "保津川"]),
   ("tourist_attraction", ["城跡", "古戦場", "処刑場", "将軍塚", "船岡山"]),
   ("place_of_worship", ["神社", "寺", "墓地", "慰霊碑", "塚", "大明神", "千日墓地", "首塚"]),
   ("park", ["公園", "緑地", "御苑", "円山公園"])]

/-- Function `determine_categories`: always `horror_spot`, plus every category one
of whose keywords occurs in the lowercased name-and-description text. -/
def determine_categories (name description : String) : List String :=
  CATEGORY_KEYWORDS.foldl
    (fun cats ck =>
      if ck.2.any (fun k => containsSub (name ++ " " ++ description).toLower k) = true ∧
          ck.1 ∉ cats then cats ++ [ck.1]
      else cats)
    ["horror_spot"]

/-- A horror-spot `pois` row (`categories` is serialized as JSON text by
the script; the label set is what the model keeps). -/
structure HPoi where
  id : String
  name : String
  categories : List String
  gridCellId : Nat
  rate : ℚ
  url : String
  location : String
deriving DecidableEq, Repr

/-- One CSV row (coordinates already parsed as numbers). -/
structure CsvRow where
  name : String
  latitude : ℚ
  longitude : ℚ
  url : String
  description : String
deriving DecidableEq, Repr

/-- Check `all([spot_name, lat, lon, url])`: Python truthiness, so a zero
coordinate or empty string fails the check. -/
def rowComplete (r : CsvRow) : Bool :=
  r.name ≠ "" && r.latitude ≠ 0 && r.longitude ≠ 0 && r.url ≠ ""

/-- Function `check_duplicate`: a stored POI with the same name, or — when the
row has a url — with the same url. -/
def check_duplicate (pois : List HPoi) (name url : String) : Bool :=
  pois.any (fun p => p.name = name) ||
    (url ≠ "" && pois.any (fun p => p.url = url))

/-- The run state of the horror-spot `main`: the table and the three
counters it reports. -/
structure HorrorState where
  pois : List HPoi
  added : Nat
  skipped : Nat
  errors : Nat
deriving DecidableEq, Repr

/-- One CSV row of the horror-spot `main` (lines 175-230): incomplete
rows and rows whose grid cell cannot be resolved are counted as errors;
duplicates are skipped; otherwise a POI is inserted under a freshly
generated UUID (`str(uuid.uuid4())`, supplied here by the generator as
`freshId`) with rate `0.0` and the determined categories. -/
def processRow (st : HorrorState) (row : CsvRow) (freshId : String) (cellRes : Option Nat) :
    HorrorState :=
  if rowComplete row = false then { st with errors := st.errors + 1 }
  else if check_duplicate st.pois row.name row.url = true then
    { st with skipped := st.skipped + 1 }
  else
    match cellRes with
    | none => { st with errors := st.errors + 1 }
    | some cid =>
      if cid = 0 then { st with errors := st.errors + 1 }
      else
        { st with
          pois := st.pois ++
            [⟨freshId, row.name, determine_categories row.name row.description, cid, 0,
              row.url, pointWkt row.longitude row.latitude⟩],
          added := st.added + 1 }

/-! ### Checkpointing, skipping and resumability -/

theorem mem_addProcessed_self (ps : List String) (g : String) : g ∈ addProcessed ps g := by
  unfold addProcessed
  by_cases h : g ∈ ps
  · rw [if_pos h]; exact h
  · rw [if_neg h]; simp

/-- Claim C6: a geohash is recorded in the processed (checkpoint) set
exactly when it was already there, or its unit had no POIs to write, or
its batched upsert succeeded against a truthy, re-verified grid-cell id;
and a unit with POIs whose resolution, verification or upsert failed
leaves the whole state untouched — it is never recorded as completed. -/
theorem checkpoint_only_after_upsert
    (fetchAt : String → List Place) (cellMap : String → Option Nat)
    (cellExists : Nat → Bool) (upsertFails : Bool) (st : ChunkState) (g : String) :
    (g ∈ (processGeohash fetchAt cellMap cellExists upsertFails st g).processed ↔
      g ∈ st.processed ∨
      (collectPois fetchAt (cellMap g)).toInsert = [] ∨
      (∃ cid, cellMap g = some cid ∧ cid ≠ 0 ∧ cellExists cid = true ∧ upsertFails = false)) ∧
    ((collectPois fetchAt (cellMap g)).toInsert ≠ [] →
      (∀ cid, cellMap g = some cid → cid = 0 ∨ cellExists cid = false ∨ upsertFails = true) →
      processGeohash fetchAt cellMap cellExists upsertFails st g = st) := by
  constructor
  · unfold processGeohash
    by_cases hrows : (collectPois fetchAt (cellMap g)).toInsert = []
    · rw [if_pos hrows]
      constructor
      · intro _; exact Or.inr (Or.inl hrows)
      · intro _; exact mem_addProcessed_self st.processed g
    · rw [if_neg hrows]
      rcases hmap : cellMap g with _ | cid
      · rw [hmap] at hrows
        dsimp only
        constructor
        · intro h; exact Or.inl h
        · rintro (h | h | ⟨cid, hc, _⟩)
          · exact h
          · exact absurd h hrows
          · cases hc
      · rw [hmap] at hrows
        dsimp only
        by_cases hc0 : cid = 0
        · rw [if_pos hc0]
          constructor
          · intro h; exact Or.inl h
          · rintro (h | h | ⟨cid', hc, hne, _, _⟩)
            · exact h
            · exact absurd h hrows
            · cases hc
              exact absurd hc0 hne
        · rw [if_neg hc0]
          by_cases hce : cellExists cid = false
          · rw [if_pos hce]
            constructor
            · intro h; exact Or.inl h
            · rintro (h | h | ⟨cid', hc, _, hex, _⟩)
              · exact h
              · exact absurd h hrows
              · cases hc
                rw [hce] at hex
                cases hex
          · rw [if_neg hce]
            by_cases huf : upsertFails = true
            · rw [if_pos huf]
              constructor
              · intro h; exact Or.inl h
              · rintro (h | h | ⟨cid', hc, _, _, hokf⟩)
                · exact h
                · exact absurd h hrows
                · rw [huf] at hokf; cases hokf
            · rw [if_neg huf]
              constructor
              · intro _
                refine Or.inr (Or.inr ⟨cid, rfl, hc0, ?_, ?_⟩)
                · cases h : cellExists cid
                  · exact absurd h hce
                  · rfl
                · cases h : upsertFails
                  · rfl
                  · exact absurd h huf
              · intro _; exact mem_addProcessed_self st.processed g
  · intro hrows hfails
    unfold processGeohash
    rw [if_neg hrows]
    rcases hmap : cellMap g with _ | cid
    · dsimp only
    · dsimp only
      rcases hfails cid hmap with h0 | hce | huf
      · rw [if_pos h0]
      · by_cases hc0 : cid = 0
        · rw [if_pos hc0]
        · rw [if_neg hc0, if_pos hce]
      · by_cases hc0 : cid = 0
        · rw [if_pos hc0]
        · rw [if_neg hc0]
          by_cases hce : cellExists cid = false
          · rw [if_pos hce]
          · rw [if_neg hce, if_pos huf]

/-- Witness for C6: a concrete instantiation of the statement (no fetch
results, no resolvable cell). -/
theorem checkpoint_only_after_upsert_witness :
    (("wxyz01" ∈ (processGeohash (fun _ => []) (fun _ => none) (fun _ => true) false
        ⟨[], []⟩ "wxyz01").processed ↔
      "wxyz01" ∈ (⟨[], []⟩ : ChunkState).processed ∨
      (collectPois (fun _ => []) ((fun _ => (none : Option Nat)) "wxyz01")).toInsert = [] ∨
      (∃ cid, (fun _ => (none : Option Nat)) "wxyz01" = some cid ∧ cid ≠ 0 ∧
        (fun _ => true) cid = true ∧ false = false)) ∧
    ((collectPois (fun _ => []) ((fun _ => (none : Option Nat)) "wxyz01")).toInsert ≠ [] →
      (∀ cid, (fun _ => (none : Option Nat)) "wxyz01" = some cid →
        cid = 0 ∨ (fun _ => true) cid = false ∨ false = true) →
      processGeohash (fun _ => []) (fun _ => none) (fun _ => true) false ⟨[], []⟩ "wxyz01" =
        ⟨[], []⟩)) :=
  checkpoint_only_after_upsert (fun _ => []) (fun _ => none) (fun _ => true) false
    ⟨[], []⟩ "wxyz01"

/-- Claim C7: a unit whose grid-cell resolution fails writes no POI
records and the run continues with the remaining units, in all three
ingestion variants: the area script skips the geohash without touching
the table, the kyoto script collects no POIs (so saving is a no-op), and
the horror-spot script records an error for the row without inserting. -/
theorem unresolved_cell_writes_nothing
    (fetchAt : String → List Place) (cellMap : String → Option Nat)
    (cellExists : Nat → Bool) (upsertFails : Bool) (st : ChunkState) (g : String)
    (hfail : cellMap g = none)
    (fetch : String → String → List Place) (upFails : String → Bool) (rest : List String)
    (fetchK : String → List Place) (ktable : List KPoi)
    (hst : HorrorState) (row : CsvRow) (freshId : String) :
    (processGeohash fetchAt cellMap cellExists upsertFails st g).table = st.table ∧
    populate_pois_chunk fetch cellMap cellExists upFails st (g :: rest) =
      populate_pois_chunk fetch cellMap cellExists upFails
        (processGeohash (fetch g) cellMap cellExists (upFails g) st g) rest ∧
    get_pois_for_geohash none fetchK = [] ∧
    save_pois_to_db ktable (get_pois_for_geohash none fetchK) = ktable ∧
    (processRow hst row freshId none).pois = hst.pois := by
  refine ⟨?_, rfl, rfl, rfl, ?_⟩
  · unfold processGeohash
    rw [hfail]
    by_cases hrows : (collectPois fetchAt none).toInsert = []
    · rw [if_pos hrows]
    · rw [if_neg hrows]
  · unfold processRow
    by_cases h1 : rowComplete row = false
    · rw [if_pos h1]
    · rw [if_neg h1]
      by_cases h2 : check_duplicate hst.pois row.name row.url = true
      · rw [if_pos h2]
      · rw [if_neg h2]

/-- Witness for C7 with an everywhere-unresolvable cell map. -/
theorem unresolved_cell_writes_nothing_witness :
    ((fun _ : String => (none : Option Nat)) "wxyz01" = none) ∧
    ((processGeohash (fun _ => []) (fun _ => none) (fun _ => true) false
        ⟨[], []⟩ "wxyz01").table = (⟨[], []⟩ : ChunkState).table ∧
      populate_pois_chunk (fun _ _ => []) (fun _ => none) (fun _ => true) (fun _ => false)
          ⟨[], []⟩ ("wxyz01" :: ["wxyz02"]) =
        populate_pois_chunk (fun _ _ => []) (fun _ => none) (fun _ => true) (fun _ => false)
          (processGeohash ((fun _ _ => ([] : List Place)) "wxyz01") (fun _ => none)
            (fun _ => true) ((fun _ => false) "wxyz01") ⟨[], []⟩ "wxyz01") ["wxyz02"] ∧
      get_pois_for_geohash none (fun _ => []) = [] ∧
      save_pois_to_db [] (get_pois_for_geohash none (fun _ => [])) = [] ∧
      (processRow ⟨[], 0, 0, 0⟩ ⟨"スポット", 35, 135, "http://a", ""⟩ "u1" none).pois =
        (⟨[], 0, 0, 0⟩ : HorrorState).pois) :=
  ⟨rfl,
    unresolved_cell_writes_nothing (fun _ => []) (fun _ => none) (fun _ => true) false
      ⟨[], []⟩ "wxyz01" rfl (fun _ _ => []) (fun _ => false) ["wxyz02"] (fun _ => []) []
      ⟨[], 0, 0, 0⟩ ⟨"スポット", 35, 135, "http://a", ""⟩ "u1"⟩

theorem chunksOf_flatten (n : Nat) (hn : 0 < n) (l : List String) :
    (chunksOf n l).flatten = l := by
  have aux : ∀ (m : Nat) (l : List String), l.length ≤ m → (chunksOf n l).flatten = l := by
    intro m
    induction m with
    | zero =>
      intro l hl
      have : l = [] := List.eq_nil_of_length_eq_zero (Nat.le_zero.mp hl)
      subst this
      simp [chunksOf]
    | succ m ih =>
      intro l hl
      cases l with
      | nil => simp [chunksOf]
      | cons x xs =>
        simp only [chunksOf]
        rw [dif_neg (Nat.pos_iff_ne_zero.mp hn), List.flatten_cons,
          ih ((x :: xs).drop n)
            (by simp only [List.length_drop, List.length_cons] at hl ⊢; omega)]
        exact List.take_append_drop n (x :: xs)
  exact aux l.length l le_rfl

/-- Claim C9: a resumed run selects exactly the target geohashes absent
from the checkpoint's completed set (every listed geohash is skipped),
and its chunk walk covers exactly that selection; with checkpoint
`{g1, g2}` and target `{g1, g2, g3}` only `g3` is processed. -/
theorem resume_processes_exactly_remaining :
    (∀ (allGeo processed : List String) (g : String),
      g ∈ remainingGeohashes allGeo processed ↔ g ∈ allGeo ∧ g ∉ processed) ∧
    (∀ allGeo processed : List String,
      (chunksOf CHUNK_SIZE (remainingGeohashes allGeo processed)).flatten =
        remainingGeohashes allGeo processed) ∧
    remainingGeohashes ["g1", "g2", "g3"] ["g1", "g2"] = ["g3"] := by
  refine ⟨?_, ?_, by decide⟩
  · intro a p g
    simp [remainingGeohashes, List.mem_filter]
  · intro a p
    exact chunksOf_flatten CHUNK_SIZE (by decide) _

/-- Claim C10: a complete CSV row whose name — or, the row having a url,
whose url — already occurs in the store is skipped with no insert, and
every POI a row does insert carries the freshly generated UUID as its
id, never an identifier taken from the row. -/
theorem horror_dedup_and_fresh_ids
    (st : HorrorState) (row : CsvRow) (freshId : String) (cellRes : Option Nat) :
    (check_duplicate st.pois row.name row.url = true ↔
      (∃ p ∈ st.pois, p.name = row.name) ∨
        (row.url ≠ "" ∧ ∃ p ∈ st.pois, p.url = row.url)) ∧
    (rowComplete row = true → check_duplicate st.pois row.name row.url = true →
      processRow st row freshId cellRes = { st with skipped := st.skipped + 1 }) ∧
    ∀ p ∈ (processRow st row freshId cellRes).pois, p ∈ st.pois ∨ p.id = freshId := by
  refine ⟨?_, ?_, ?_⟩
  · simp [check_duplicate, List.any_eq_true]
  · intro hcomp hdup
    unfold processRow
    rw [if_neg (by rw [hcomp]; exact Bool.noConfusion), if_pos hdup]
  · intro p hp
    unfold processRow at hp
    by_cases h1 : rowComplete row = false
    · rw [if_pos h1] at hp; exact Or.inl hp
    · rw [if_neg h1] at hp
      by_cases h2 : check_duplicate st.pois row.name row.url = true
      · rw [if_pos h2] at hp; exact Or.inl hp
      · rw [if_neg h2] at hp
        cases cellRes with
        | none => exact Or.inl hp
        | some cid =>
          dsimp only at hp
          by_cases h3 : cid = 0
          · rw [if_pos h3] at hp; exact Or.inl hp
          · rw [if_neg h3] at hp
            simp only [List.mem_append, List.mem_singleton] at hp
            rcases hp with hp | hp
            · exact Or.inl hp
            · exact Or.inr (by rw [hp])

/-- Witness for C10: a store already holding the row's name, so the row
is skipped. -/
theorem horror_dedup_and_fresh_ids_witness :
    (rowComplete ⟨"既知スポット", 35, 135, "http://b", ""⟩ = true ∧
      check_duplicate [⟨"id0", "既知スポット", ["horror_spot"], 1, 0, "http://a", "L"⟩]
        (CsvRow.name ⟨"既知スポット", 35, 135, "http://b", ""⟩)
        (CsvRow.url ⟨"既知スポット", 35, 135, "http://b", ""⟩) = true) ∧
    ((check_duplicate [⟨"id0", "既知スポット", ["horror_spot"], 1, 0, "http://a", "L"⟩]
        (CsvRow.name ⟨"既知スポット", 35, 135, "http://b", ""⟩)
        (CsvRow.url ⟨"既知スポット", 35, 135, "http://b", ""⟩) = true ↔
      (∃ p ∈ [(⟨"id0", "既知スポット", ["horror_spot"], 1, 0, "http://a", "L"⟩ : HPoi)],
          p.name = CsvRow.name ⟨"既知スポット", 35, 135, "http://b", ""⟩) ∨
        (CsvRow.url ⟨"既知スポット", 35, 135, "http://b", ""⟩ ≠ "" ∧
          ∃ p ∈ [(⟨"id0", "既知スポット", ["horror_spot"], 1, 0, "http://a", "L"⟩ : HPoi)],
            p.url = CsvRow.url ⟨"既知スポット", 35, 135, "http://b", ""⟩)) ∧
    (rowComplete ⟨"既知スポット", 35, 135, "http://b", ""⟩ = true →
      check_duplicate [⟨"id0", "既知スポット", ["horror_spot"], 1, 0, "http://a", "L"⟩]
        (CsvRow.name ⟨"既知スポット", 35, 135, "http://b", ""⟩)
        (CsvRow.url ⟨"既知スポット", 35, 135, "http://b", ""⟩) = true →
      processRow ⟨[⟨"id0", "既知スポット", ["horror_spot"], 1, 0, "http://a", "L"⟩], 0, 0, 0⟩
          ⟨"既知スポット", 35, 135, "http://b", ""⟩ "fresh-uuid" (some 7) =
        { (⟨[⟨"id0", "既知スポット", ["horror_spot"], 1, 0, "http://a", "L"⟩], 0, 0, 0⟩ :
            HorrorState) with skipped := 0 + 1 }) ∧
    ∀ p ∈ (processRow ⟨[⟨"id0", "既知スポット", ["horror_spot"], 1, 0, "http://a", "L"⟩], 0, 0, 0⟩
        ⟨"既知スポット", 35, 135, "http://b", ""⟩ "fresh-uuid" (some 7)).pois,
      p ∈ HorrorState.pois ⟨[⟨"id0", "既知スポット", ["horror_spot"], 1, 0, "http://a", "L"⟩], 0, 0, 0⟩ ∨
        p.id = "fresh-uuid") :=
  ⟨⟨by decide, by decide⟩,
    horror_dedup_and_fresh_ids
      ⟨[⟨"id0", "既知スポット", ["horror_spot"], 1, 0, "http://a", "L"⟩], 0, 0, 0⟩
      ⟨"既知スポット", 35, 135, "http://b", ""⟩ "fresh-uuid" (some 7)⟩

/-! ### The rating admission filter -/

theorem foldl_scanType_empty (fetch : String → List Place) (cellId : Option Nat) :
    ∀ (l : List String) (st : ScanState), (∀ ty ∈ l, fetch ty = []) →
      l.foldl (scanType fetch cellId) st = st := by
  intro l
  induction l with
  | nil => intro st _; rfl
  | cons ty l ih =>
    intro st h
    rw [List.foldl_cons]
    have hty : scanType fetch cellId st ty = st := by
      unfold scanType
      by_cases hrv : ty = "riverside_park"
      · rw [if_pos hrv]
      · rw [if_neg hrv, h ty (List.mem_cons_self ty l)]
        rfl
    rw [hty]
    exact ih st (fun ty' h' => h ty' (List.mem_cons_of_mem ty h'))

/-- Claim C8: a fetched candidate with a fresh, non-empty place id is
admitted to the unit's insert batch iff its rating reaches the threshold
of the queried category — boundary inclusive (`>=`), parks (riverside or
not) at 3.0 and every other category at `MIN_RATING = 3.5`. -/
theorem rating_filter_boundary
    (t : String) (p : Place) (cellId : Option Nat)
    (ht : t ∈ POI_TYPES_M) (htr : t ≠ "riverside_park") (hid : p.place_id ≠ "") :
    (p.place_id ∈ (collectPois (fun u => if u = t then [p] else []) cellId).toInsert.map
        (fun q => q.id) ↔ minRatingFor t ≤ p.rating) ∧
    minRatingFor "park" = 3 ∧ (t ≠ "park" → minRatingFor t = MIN_RATING) ∧
    (3 : ℚ) < MIN_RATING := by
  have hnodup : POI_TYPES_M.Nodup := by decide
  obtain ⟨pre, post, hsplit⟩ := List.append_of_mem ht
  have hmid := List.nodup_middle.mp (hsplit ▸ hnodup)
  rw [List.nodup_cons] at hmid
  have hpre : t ∉ pre := fun hc => hmid.1 (List.mem_append.mpr (Or.inl hc))
  have hpost : t ∉ post := fun hc => hmid.1 (List.mem_append.mpr (Or.inr hc))
  have hfe : ∀ u, u ≠ t → (fun u => if u = t then [p] else []) u = [] :=
    fun u hu => if_neg hu
  have hmain : mainScan (fun u => if u = t then [p] else []) cellId =
      scanTypePlace t cellId ⟨[], []⟩ p := by
    unfold mainScan
    rw [hsplit, List.foldl_append, List.foldl_cons,
      foldl_scanType_empty _ cellId pre ⟨[], []⟩
        (fun ty hty => hfe ty (fun h => hpre (h ▸ hty)))]
    have hstep : scanType (fun u => if u = t then [p] else []) cellId ⟨[], []⟩ t =
        scanTypePlace t cellId ⟨[], []⟩ p := by
      unfold scanType
      rw [if_neg htr]
      dsimp only
      rw [if_pos rfl]
      rfl
    rw [hstep]
    exact foldl_scanType_empty _ cellId post _
      (fun ty hty => hfe ty (fun h => hpost (h ▸ hty)))
  refine ⟨?_, by simp [minRatingFor], fun h => by simp [minRatingFor, h],
    by norm_num [MIN_RATING]⟩
  unfold collectPois
  rw [hmain]
  dsimp only
  by_cases htp : t = "park"
  · subst htp
    rw [if_pos rfl]
    by_cases hrat : (3 : ℚ) ≤ p.rating
    · by_cases hrr : is_riverside_park p.name p.types = true
      · have h1 : scanTypePlace "park" cellId ⟨[], []⟩ p = ⟨[], []⟩ := by
          unfold scanTypePlace
          rw [if_pos ⟨hid, by simp, by simpa [minRatingFor] using hrat⟩, if_pos ⟨rfl, hrr⟩]
        rw [h1]
        have h2 : scanRiversidePlace cellId ⟨[], []⟩ p =
            ⟨[p.place_id], [⟨p.place_id, p.name, pointWkt p.lng p.lat,
              "riverside_park", p.rating, cellId⟩]⟩ := by
          unfold scanRiversidePlace
          rw [if_pos ⟨hid, by simp, hrat⟩, if_pos hrr]
          rfl
        show p.place_id ∈ (scanRiversidePlace cellId ⟨[], []⟩ p).toInsert.map (fun q => q.id) ↔
          minRatingFor "park" ≤ p.rating
        rw [h2]
        simp [minRatingFor, hrat]
      · have h1 : scanTypePlace "park" cellId ⟨[], []⟩ p =
            ⟨[p.place_id], [⟨p.place_id, p.name, pointWkt p.lng p.lat,
              p.types.headD "park", p.rating, cellId⟩]⟩ := by
          unfold scanTypePlace
          rw [if_pos ⟨hid, by simp, by simpa [minRatingFor] using hrat⟩,
            if_neg (fun hc => hrr hc.2)]
          rfl
        rw [h1]
        have h2 : scanRiversidePlace cellId
            ⟨[p.place_id], [⟨p.place_id, p.name, pointWkt p.lng p.lat,
              p.types.headD "park", p.rating, cellId⟩]⟩ p =
            ⟨[p.place_id], [⟨p.place_id, p.name, pointWkt p.lng p.lat,
              p.types.headD "park", p.rating, cellId⟩]⟩ := by
          unfold scanRiversidePlace
          rw [if_neg (fun hc => by simpa using hc.2.1)]
        show p.place_id ∈ (scanRiversidePlace cellId _ p).toInsert.map (fun q => q.id) ↔
          minRatingFor "park" ≤ p.rating
        rw [h2]
        simp [minRatingFor, hrat]
    · have h1 : scanTypePlace "park" cellId ⟨[], []⟩ p = ⟨[], []⟩ := by
        unfold scanTypePlace
        rw [if_neg (fun hc => hrat (by simpa [minRatingFor] using hc.2.2))]
      rw [h1]
      have h2 : scanRiversidePlace cellId ⟨[], []⟩ p = ⟨[], []⟩ := by
        unfold scanRiversidePlace
        rw [if_neg (fun hc => hrat hc.2.2)]
      show p.place_id ∈ (scanRiversidePlace cellId ⟨[], []⟩ p).toInsert.map (fun q => q.id) ↔
        minRatingFor "park" ≤ p.rating
      rw [h2]
      simp [minRatingFor, hrat]
  · rw [if_neg (fun h => htp h.symm)]
    show p.place_id ∈ (scanTypePlace t cellId ⟨[], []⟩ p).toInsert.map (fun q => q.id) ↔
      minRatingFor t ≤ p.rating
    by_cases hrat : minRatingFor t ≤ p.rating
    · have h1 : scanTypePlace t cellId ⟨[], []⟩ p =
          ⟨[p.place_id], [⟨p.place_id, p.name, pointWkt p.lng p.lat,
            p.types.headD t, p.rating, cellId⟩]⟩ := by
        unfold scanTypePlace
        rw [if_pos ⟨hid, by simp, hrat⟩, if_neg (fun hc => htp hc.1)]
        rfl
      rw [h1]
      simp [hrat]
    · have h1 : scanTypePlace t cellId ⟨[], []⟩ p = ⟨[], []⟩ := by
        unfold scanTypePlace
        rw [if_neg (fun hc => hrat hc.2.2)]
      rw [h1]
      simp [hrat]

/-- Witness for C8: a fresh cafe candidate rated 4. -/
theorem rating_filter_boundary_witness :
    ("cafe" ∈ POI_TYPES_M ∧ "cafe" ≠ "riverside_park" ∧
      Place.place_id ⟨"P1", "Cafe X", 4, ["cafe"], 35, 135⟩ ≠ "") ∧
    ((Place.place_id ⟨"P1", "Cafe X", 4, ["cafe"], 35, 135⟩ ∈
        (collectPois (fun u => if u = "cafe" then [⟨"P1", "Cafe X", 4, ["cafe"], 35, 135⟩]
          else []) (some 1)).toInsert.map (fun q => q.id) ↔
      minRatingFor "cafe" ≤ Place.rating ⟨"P1", "Cafe X", 4, ["cafe"], 35, 135⟩) ∧
    minRatingFor "park" = 3 ∧ ("cafe" ≠ "park" → minRatingFor "cafe" = MIN_RATING) ∧
    (3 : ℚ) < MIN_RATING) :=
  ⟨⟨by decide, by decide, by decide⟩,
    rating_filter_boundary "cafe" ⟨"P1", "Cafe X", 4, ["cafe"], 35, 135⟩ (some 1)
      (by decide) (by decide) (by decide)⟩

/-- Witness for the amended C1 at a concrete table and batch. -/
theorem kyoto_save_categories_union_witness :
    "カフェ" ∈ storedCategories
        (save_pois_to_db [⟨"X1", "N", "L", ["観光名所"], 1, 4⟩]
          [⟨"X1", "N", "L", ["カフェ"], 1, 4⟩]) "X1" ↔
      "カフェ" ∈ storedCategories [⟨"X1", "N", "L", ["観光名所"], 1, 4⟩] "X1" ∨
        ∃ p ∈ [(⟨"X1", "N", "L", ["カフェ"], 1, 4⟩ : KPoi)],
          p.id = "X1" ∧ "カフェ" ∈ p.categories :=
  kyoto_save_categories_union [⟨"X1", "N", "L", ["観光名所"], 1, 4⟩]
    [⟨"X1", "N", "L", ["カフェ"], 1, 4⟩] "X1" "カフェ"

/-- Witness for C9 at the target set of the spec's example. -/
theorem resume_processes_exactly_remaining_witness :
    "g3" ∈ remainingGeohashes ["g1", "g2", "g3"] ["g1", "g2"] ↔
      "g3" ∈ ["g1", "g2", "g3"] ∧ "g3" ∉ ["g1", "g2"] :=
  resume_processes_exactly_remaining.1 ["g1", "g2", "g3"] ["g1", "g2"] "g3"

end Team8
